import Mathlib

set_option maxRecDepth 16000

/-!
Verification development for `incremental_archive.py`, a batch utility that
archives each immediate subdirectory of the working directory when any entry
in it is newer than the stored watermark, keeping its state in the XML file
`archive-history.xml`.

The script is shallowly embedded below:

* the calendar arithmetic behind `calendar.timegm`, `time.gmtime`,
  `time.strftime`/`time.strptime` for the one fixed format string
  `'%Y-%m-%d %H:%M:%S GMT'` is modelled from the CPython library sources
  (`datetime`'s `_days_before_year`/`_days_before_month`/`_is_leap`,
  `calendar.timegm`, `_strptime`'s regular expression for the format,
  including its one-or-more-whitespace and case-insensitive treatment of
  literal spaces and of `GMT`);
* the XML metadata file is modelled at the DOM level (`xml.dom.minidom`
  output of `parse`): a parsed document is a list of root nodes, each node an
  element with attributes and children or a text node, and `getAttribute`
  returns `""` for a missing attribute exactly as minidom does;
* the filesystem tree walked by `os.walk` is a tree of named, timestamped
  files and directories; listing order is the order of the child list;
* the orchestrator (`update_archives`/`try_archive`/`create_archive`/`main`)
  is a state-passing interpretation where the environment chooses the parsed
  state of the metadata file, the subdirectory listing, the outcome of each
  tar operation, the wall clock and the outcome of the final save; printed
  lines, created archives, raised-and-handled exceptions and the persisted
  document are recorded in the state.

Recursions that witnesses must evaluate inside the kernel are written with
structural fuel; the fuel supplied by the wrappers is always sufficient,
which the lemmas below establish.
-/

namespace IA

/-! ## Calendar arithmetic (CPython `datetime` internals and `calendar.timegm`) -/

/-- Leap-year test, from CPython `datetime._is_leap`:
`year % 4 == 0 and (year % 100 != 0 or year % 400 == 0)`. -/
def isleap (y : Nat) : Bool :=
  y % 4 == 0 && (y % 100 != 0 || y % 400 == 0)

/-- `datetime._DAYS_IN_MONTH` for a non-leap year (month is 1-based). -/
def month_len : Nat → Nat
  | 1 => 31 | 2 => 28 | 3 => 31 | 4 => 30 | 5 => 31 | 6 => 30
  | 7 => 31 | 8 => 31 | 9 => 30 | 10 => 31 | 11 => 30 | 12 => 31
  | _ => 0

/-- `datetime._days_in_month`. -/
def days_in_month (y m : Nat) : Nat :=
  if m = 2 ∧ isleap y = true then 29 else month_len m

/-- `datetime._DAYS_BEFORE_MONTH` (the `_ => 365` case is only reached for
`m ≥ 13`, where it equals the non-leap year length, matching the sum of all
twelve months). -/
def days_before_month_tbl : Nat → Nat
  | 1 => 0 | 2 => 31 | 3 => 59 | 4 => 90 | 5 => 120 | 6 => 151
  | 7 => 181 | 8 => 212 | 9 => 243 | 10 => 273 | 11 => 304 | 12 => 334
  | _ => 365

/-- `datetime._days_before_month`. -/
def days_before_month (y m : Nat) : Nat :=
  days_before_month_tbl m + (if 2 < m ∧ isleap y = true then 1 else 0)

/-- `datetime._days_before_year`: days between 0001-01-01 and the first day
of year `y` in the proleptic Gregorian calendar. -/
def days_before_year (y : Nat) : Nat :=
  (y - 1) * 365 + (y - 1) / 4 - (y - 1) / 100 + (y - 1) / 400

/-- `datetime.date(y, m, d).toordinal()`. -/
def toordinal (y m d : Nat) : Nat :=
  days_before_year y + days_before_month y m + d

/-- `calendar.timegm` applied to the six leading `struct_time` fields:
`days = date(year, month, 1).toordinal() - _EPOCH_ORD + day - 1`, then
`((days*24 + hour)*60 + minute)*60 + second`, with `_EPOCH_ORD = 719163`. -/
def timegm (y mo d h mi s : Nat) : Int :=
  let days : Int := (toordinal y mo 1 : Int) - 719163 + (d : Int) - 1
  let hours : Int := days * 24 + (h : Int)
  let minutes : Int := hours * 60 + (mi : Int)
  minutes * 60 + (s : Int)

/-- Length of year `y` in days. -/
def daysInYear (y : Nat) : Nat := if isleap y = true then 366 else 365

/-- Year search for the `gmtime` direction: starting at year `y` with `n`
days remaining, subtract year lengths until fewer than one year remains.
Structural fuel; `n / 365 + 1` steps always suffice. -/
def yearFromOrd : Nat → Nat → Nat → Nat × Nat
  | 0, y, n => (y, n)
  | fuel + 1, y, n =>
    if n < daysInYear y then (y, n)
    else yearFromOrd fuel (y + 1) (n - daysInYear y)

/-- Month search inside a year: starting at month `m` with `n` days of the
year remaining, subtract month lengths; 13 steps of fuel always suffice. -/
def monthFromDoy : Nat → Nat → Nat → Nat → Nat × Nat
  | 0, _, m, n => (m, n)
  | fuel + 1, y, m, n =>
    if 12 ≤ m then (m, n)
    else if n < days_in_month y m then (m, n)
    else monthFromDoy fuel y (m + 1) (n - days_in_month y m)

/-- The six `struct_time` fields the script uses. -/
structure Tm where
  tm_year : Nat
  tm_mon : Nat
  tm_mday : Nat
  tm_hour : Nat
  tm_min : Nat
  tm_sec : Nat
deriving DecidableEq

/-- `time.gmtime(t)` modelled by the civil-calendar decomposition of the
epoch timestamp `t`: floor split into days and seconds of day, shift to the
ordinal day count from 0001-01-01 (719162 days before the epoch), split off
whole 400-year eras of 146097 days, then search the year within the era and
the month within the year.  The model is faithful for all timestamps of
years 1-9999 and beyond; timestamps before year 1, where C libraries
disagree, are clamped to 0001-01-01. -/
def gmtime (t : Int) : Tm :=
  let days : Int := Int.ediv t 86400
  let sod : Nat := (Int.emod t 86400).toNat
  let n : Nat := (days + 719162).toNat
  let era : Nat := n / 146097
  let rem : Nat := n % 146097
  let p := yearFromOrd (rem / 365 + 1) (400 * era + 1) rem
  let q := monthFromDoy 13 p.1 1 p.2
  ⟨p.1, q.1, q.2 + 1, sod / 3600, sod % 3600 / 60, sod % 60⟩

/-! ## Formatting (`time.strftime('%Y-%m-%d %H:%M:%S GMT', time.gmtime(t))`) -/

/-- The decimal digit character for `n < 10`. -/
def digitChar (n : Nat) : Char := Char.ofNat (48 + n)

/-- Unpadded decimal representation (`%Y` prints the year without padding
for years ≥ 1000, and with all digits for years ≥ 10000). Structural fuel;
`n + 1` steps always suffice. -/
def fmt_nat_fuel : Nat → Nat → List Char
  | 0, _ => []
  | fuel + 1, n =>
    if n < 10 then [digitChar n]
    else fmt_nat_fuel fuel (n / 10) ++ [digitChar (n % 10)]

/-- Decimal representation of a natural number. -/
def fmt_nat (n : Nat) : List Char := fmt_nat_fuel (n + 1) n

/-- Two-digit zero-padded field (`%m`, `%d`, `%H`, `%M`, `%S`; all are below
100 for every `struct_time` produced by `gmtime`). -/
def pad2 (n : Nat) : List Char := [digitChar (n / 10 % 10), digitChar (n % 10)]

/-- The characters of `strftime('%Y-%m-%d %H:%M:%S GMT', tm)`. -/
def fmt_tm_chars (tm : Tm) : List Char :=
  fmt_nat tm.tm_year ++ '-' :: pad2 tm.tm_mon ++ '-' :: pad2 tm.tm_mday
    ++ ' ' :: pad2 tm.tm_hour ++ ':' :: pad2 tm.tm_min ++ ':' :: pad2 tm.tm_sec
    ++ [' ', 'G', 'M', 'T']

/-- `sec_to_str_time` from the script:
`time.strftime('%Y-%m-%d %H:%M:%S GMT', time.gmtime(secnum))`. -/
def sec_to_str_time (secnum : Int) : String := String.mk (fmt_tm_chars (gmtime secnum))

/-! ## Parsing (`time.strptime(s, '%Y-%m-%d %H:%M:%S GMT')` from CPython
`_strptime`): the format is compiled to the case-insensitive regular
expression built from `Y ↦ \d\d\d\d`, `m ↦ 1[0-2]|0[1-9]|[1-9]`,
`d ↦ 3[01]|[12]\d|0[1-9]|[1-9]`, `H ↦ 2[0-3]|[0-1]\d|\d`, `M ↦ [0-5]\d|\d`,
`S ↦ 6[01]|[0-5]\d|\d`, each run of literal whitespace ↦ `\s+`, and the whole
string must be consumed. Alternation with backtracking is modelled in
continuation-passing style. -/

/-- Numeric value of a digit character. -/
def readDigit (c : Char) : Option Nat :=
  if '0' ≤ c ∧ c ≤ '9' then some (c.toNat - 48) else none

/-- A two-character-class alternative of a field pattern. -/
def matchTwo (ok1 ok2 : Char → Bool) : List Char → Option (Nat × List Char)
  | a :: b :: rest =>
    if ok1 a && ok2 b then
      match readDigit a, readDigit b with
      | some x, some y => some (x * 10 + y, rest)
      | _, _ => none
    else none
  | _ => none

/-- A one-character-class alternative of a field pattern. -/
def matchOne (ok : Char → Bool) : List Char → Option (Nat × List Char)
  | a :: rest => if ok a then (readDigit a).map (fun v => (v, rest)) else none
  | [] => none

/-- The character class `\d`. -/
def isDigCh (c : Char) : Bool := decide ('0' ≤ c) && decide (c ≤ '9')

/-- The character class `[lo-hi]`. -/
def inRangeC (lo hi c : Char) : Bool := decide (lo ≤ c) && decide (c ≤ hi)

/-- `%m` alternatives: `1[0-2]|0[1-9]|[1-9]`. -/
def monthAlts : List (List Char → Option (Nat × List Char)) :=
  [matchTwo (· == '1') (inRangeC '0' '2'),
   matchTwo (· == '0') (inRangeC '1' '9'),
   matchOne (inRangeC '1' '9')]

/-- `%d` alternatives: `3[01]|[12]\d|0[1-9]|[1-9]`. -/
def dayAlts : List (List Char → Option (Nat × List Char)) :=
  [matchTwo (· == '3') (inRangeC '0' '1'),
   matchTwo (inRangeC '1' '2') isDigCh,
   matchTwo (· == '0') (inRangeC '1' '9'),
   matchOne (inRangeC '1' '9')]

/-- `%H` alternatives: `2[0-3]|[0-1]\d|\d`. -/
def hourAlts : List (List Char → Option (Nat × List Char)) :=
  [matchTwo (· == '2') (inRangeC '0' '3'),
   matchTwo (inRangeC '0' '1') isDigCh,
   matchOne isDigCh]

/-- `%M` alternatives: `[0-5]\d|\d`. -/
def minAlts : List (List Char → Option (Nat × List Char)) :=
  [matchTwo (inRangeC '0' '5') isDigCh,
   matchOne isDigCh]

/-- `%S` alternatives: `6[01]|[0-5]\d|\d`. -/
def secAlts : List (List Char → Option (Nat × List Char)) :=
  [matchTwo (· == '6') (inRangeC '0' '1'),
   matchTwo (inRangeC '0' '5') isDigCh,
   matchOne isDigCh]

/-- Regular-expression alternation with backtracking: try each alternative
in order; on a match run the continuation, and if it fails try the next
alternative. -/
def tryAlts (alts : List (List Char → Option (Nat × List Char))) (cs : List Char)
    (k : Nat → List Char → Option Tm) : Option Tm :=
  match alts with
  | [] => none
  | a :: rest =>
    match a cs with
    | some (v, cs2) =>
      match k v cs2 with
      | some r => some r
      | none => tryAlts rest cs k
    | none => tryAlts rest cs k

/-- A literal (non-whitespace) character of the format. -/
def litCh (c : Char) (cs : List Char) (k : List Char → Option Tm) : Option Tm :=
  match cs with
  | a :: rest => if a = c then k rest else none
  | [] => none

/-- ASCII whitespace, the byte-string `\s` class of Python 2 `re`. -/
def isWsCh (c : Char) : Bool :=
  c == ' ' || c == '\t' || c == '\n' || c == '\r' || c == '\x0b' || c == '\x0c'

/-- `\s+`: literal whitespace in the format matches one or more whitespace
characters (greedy matching is equivalent here because the next pattern
character is never whitespace). -/
def wsPlus (cs : List Char) (k : List Char → Option Tm) : Option Tm :=
  match cs with
  | a :: rest => if isWsCh a = true then k (rest.dropWhile isWsCh) else none
  | [] => none

/-- A case-insensitive literal letter (`_strptime` compiles with
`re.IGNORECASE`). -/
def litCI (c1 c2 : Char) (cs : List Char) (k : List Char → Option Tm) : Option Tm :=
  match cs with
  | a :: rest => if a = c1 ∨ a = c2 then k rest else none
  | [] => none

/-- `%Y`: exactly four digits. -/
def read4 : List Char → Option (Nat × List Char)
  | a :: b :: c :: d :: rest =>
    match readDigit a, readDigit b, readDigit c, readDigit d with
    | some x1, some x2, some x3, some x4 =>
      some (((x1 * 10 + x2) * 10 + x3) * 10 + x4, rest)
    | _, _, _, _ => none
  | _ => none

/-- `time.strptime(s, '%Y-%m-%d %H:%M:%S GMT')`, pattern-matching stage. -/
def strptime_gmt (cs : List Char) : Option Tm :=
  match read4 cs with
  | none => none
  | some (y, cs1) =>
    litCh '-' cs1 (fun cs2 =>
    tryAlts monthAlts cs2 (fun mo cs3 =>
    litCh '-' cs3 (fun cs4 =>
    tryAlts dayAlts cs4 (fun d cs5 =>
    wsPlus cs5 (fun cs6 =>
    tryAlts hourAlts cs6 (fun h cs7 =>
    litCh ':' cs7 (fun cs8 =>
    tryAlts minAlts cs8 (fun mi cs9 =>
    litCh ':' cs9 (fun cs10 =>
    tryAlts secAlts cs10 (fun s cs11 =>
    wsPlus cs11 (fun cs12 =>
    litCI 'G' 'g' cs12 (fun cs13 =>
    litCI 'M' 'm' cs13 (fun cs14 =>
    litCI 'T' 't' cs14 (fun cs15 =>
    match cs15 with
    | [] => some ⟨y, mo, d, h, mi, s⟩
    | _ => none))))))))))))))

/-- The `lastArchivized` parse of `get_last_archivized`:
`calendar.timegm(time.strptime(s, '%Y-%m-%d %H:%M:%S GMT'))`, returning
`none` when `ValueError` is raised.  `strptime` itself validates the day
against the month and the year against `datetime.date`'s range (it computes
`datetime.date(year, month, day)` for the julian day), so a pattern match
with year 0 or a day beyond the month length also fails. -/
def parse_last_archivized (s : String) : Option Int :=
  match strptime_gmt s.data with
  | none => none
  | some tm =>
    if 1 ≤ tm.tm_year ∧ tm.tm_mday ≤ days_in_month tm.tm_year tm.tm_mon then
      some (timegm tm.tm_year tm.tm_mon tm.tm_mday tm.tm_hour tm.tm_min tm.tm_sec)
    else none

/-! ## The metadata file at DOM level (`xml.dom.minidom`) -/

/-- A DOM node as the script sees it: an element with a tag name, attributes
and child nodes, or a text node (`nodeName` is `"#text"`).  `getAttribute`
on a text node cannot occur on a well-formed document: a well-formed sole
root child is always the document element. -/
inductive XmlNode where
  | elem (tag : String) (attrs : List (String × String)) (childNodes : List XmlNode)
  | text (content : String)

/-- `node.nodeName`. -/
def XmlNode.nodeName : XmlNode → String
  | .elem tag _ _ => tag
  | .text _ => "#text"

/-- `node.getAttribute(a)`: minidom returns the empty string when the
attribute is absent. -/
def XmlNode.getAttribute : XmlNode → String → String
  | .elem _ attrs _, a => (attrs.lookup a).getD ""
  | .text _, _ => ""

/-- `node.childNodes`. -/
def XmlNode.childNodes : XmlNode → List XmlNode
  | .elem _ _ cs => cs
  | .text _ => []

/-- The observable state of `archive-history.xml` at the start of the run:
opening it raises `IOError` (the file is absent or unreadable), the XML
parser raises `ExpatError` (the file is present but not well-formed), or it
parses to a document whose `childNodes` are the given root nodes. -/
inductive FileState where
  | ioError
  | malformed (msg : String)
  | parsed (doc : List XmlNode)

/-- The History mapping (a Python dict from directory name to epoch
seconds), as an association list without duplicate keys. -/
abbrev History := List (String × Int)

/-- Python dict assignment `h[k] = v`: replace the value in place if the key
exists, append otherwise. -/
def dict_insert (h : History) (k : String) (v : Int) : History :=
  if h.any (fun p => p.1 == k) then
    h.map (fun p => if p.1 = k then (k, v) else p)
  else h ++ [(k, v)]

/-- Python dict lookup (`k in h` and `h[k]` combined). -/
def dict_get (h : History) (k : String) : Option Int :=
  (h.find? (fun p => p.1 == k)).map Prod.snd

/-- `get_dir_nodes`: require exactly one root node, require a non-empty
`version` attribute on it, and collect its children named `directory`. -/
def get_dir_nodes (doc : List XmlNode) : Except String (List XmlNode) :=
  match doc with
  | [root] =>
    if root.getAttribute "version" = "" then
      .error "Lack of version attribute in metadata file"
    else
      .ok (root.childNodes.filter (fun n => n.nodeName == "directory"))
  | _ => .error "Invalid root elements <archive> in metadata file"

/-- `parse_dir_node` (with `assert_dir_name`, `assert_last_archivized` and
`get_last_archivized` inlined): read the `name` and `lastArchivized`
attributes, parse the timestamp, and assign `history[name]`. -/
def parse_dir_node (node : XmlNode) (history : History) : Except String History :=
  let dirName := node.getAttribute "name"
  if dirName = "" then .error "Missing name attribute for directory"
  else
    let las := node.getAttribute "lastArchivized"
    if las = "" then .error "Missing lastArchivized attribute for directory"
    else
      match parse_last_archivized las with
      | none => .error ("Invalid value [" ++ las ++ "] for attribute lastArchivized")
      | some v => .ok (dict_insert history dirName v)

/-- `parse_archive_history` (the History Store `load()`): `IOError` is
swallowed and yields the empty History, `ExpatError` is wrapped into
`ExcInvalidFormat`, and the directory nodes are folded into the dict. -/
def parse_archive_history (fs : FileState) : Except String History :=
  match fs with
  | .ioError => .ok []
  | .malformed msg => .error ("Invalid format archive-history.xml - " ++ msg)
  | .parsed doc =>
    match get_dir_nodes doc with
    | .error e => .error e
    | .ok nodes => nodes.foldlM (fun h n => parse_dir_node n h) []

/-- Whether a load attempt raised `ExcInvalidFormat`. -/
def isErr (e : Except String History) : Bool :=
  match e with
  | .error _ => true
  | .ok _ => false

/-- `create_dir_tag`: `<directory name=... lastArchivized=... />`. -/
def create_dir_tag (sub_dir : String) (last_archivized : Int) : XmlNode :=
  .elem "directory" [("name", sub_dir), ("lastArchivized", sec_to_str_time last_archivized)] []

/-- `save_history`, as the document it writes: one `archive` root with
`version="1"` whose children are the directory tags, interleaved with the
whitespace text nodes `toprettyxml` inserts. -/
def save_history (dirs : History) : List XmlNode :=
  [XmlNode.elem "archive" [("version", "1")]
    ((dirs.map (fun p => [XmlNode.text "\n    ", create_dir_tag p.1 p.2])).flatten
      ++ [XmlNode.text "\n"])]

/-! ## The directory tree and `is_modified_after` (`os.walk`) -/

mutual
/-- A filesystem entry: a file or a directory, with its name and
modification time. Children are in `os.listdir` order. -/
inductive FSTree where
  | file (name : String) (mtime : Int)
  | dir (name : String) (mtime : Int) (children : FSList)

/-- A list of sibling filesystem entries. -/
inductive FSList where
  | nil
  | cons (head : FSTree) (tail : FSList)
end

/-- The sibling list as a `List`. -/
def FSList.toList : FSList → List FSTree
  | .nil => []
  | .cons t rest => t :: rest.toList

/-- The mtimes of the file entries of a sibling list, in order: the
`for fname in files` loop of `is_modified_after`. -/
def file_mtimes (cs : List FSTree) : List Int :=
  cs.filterMap (fun c => match c with | .file _ m => some m | .dir _ _ _ => none)

/-- First file in the current directory newer than the watermark. -/
def first_new_file (cs : List FSTree) (wm : Int) : Option Int :=
  (file_mtimes cs).find? (fun m => decide (wm < m))

mutual
/-- `is_modified_after(directory, max_mtime)`: walk the tree in `os.walk`
top-down order; at each directory first test the directory's own mtime, then
every file in it, then descend into subdirectories other than `CVS` and
`.svn`; return the first mtime strictly greater than the watermark, or
`none`.  `os.walk` on a non-directory yields nothing. -/
def is_modified_after (t : FSTree) (wm : Int) : Option Int :=
  match t with
  | .file _ _ => none
  | .dir _ m cs =>
    if wm < m then some m
    else
      match first_new_file cs.toList wm with
      | some r => some r
      | none => walk_children cs wm

/-- Descend into the subdirectories of the current directory, pruning `CVS`
and `.svn`. -/
def walk_children (cs : FSList) (wm : Int) : Option Int :=
  match cs with
  | .nil => none
  | .cons (.file _ _) rest => walk_children rest wm
  | .cons (.dir n m cs2) rest =>
    if n = "CVS" ∨ n = ".svn" then walk_children rest wm
    else
      match is_modified_after (.dir n m cs2) wm with
      | some r => some r
      | none => walk_children rest wm
end

mutual
/-- The mtimes `is_modified_after` inspects, in the order it inspects them:
each walked directory's own mtime, then its files' mtimes, then the subtrees
of its non-pruned subdirectories. -/
def inspected_mtimes (t : FSTree) : List Int :=
  match t with
  | .file _ _ => []
  | .dir _ m cs => m :: (file_mtimes cs.toList ++ inspected_children cs)

/-- The inspected mtimes contributed by the subdirectories of a sibling
list (`CVS` and `.svn` subtrees are never inspected). -/
def inspected_children (cs : FSList) : List Int :=
  match cs with
  | .nil => []
  | .cons (.file _ _) rest => inspected_children rest
  | .cons (.dir n m cs2) rest =>
    if n = "CVS" ∨ n = ".svn" then inspected_children rest
    else inspected_mtimes (.dir n m cs2) ++ inspected_children rest
end

/-! ## The orchestrator (`update_archives`, `try_archive`, `create_archive`,
`main`) as a state-passing interpretation -/

/-- A Python exception reaching the handlers of `update_archives`:
`KeyboardInterrupt` or any other `Exception` (with its message). -/
inductive PyExc where
  | interrupt
  | err (msg : String)
deriving DecidableEq

/-- One printed line, abstracted to its kind and the data interpolated into
it: the `## Dir ... last processed` status line, the
`---- Dir/File ... was modified` note, `---- Creating archive ...`,
`Interrupt creating ...`, and `Error in creating ... - ...`. -/
inductive OutMsg where
  | dirStatus (name : String) (lastStr : String)
  | modifiedNote (name : String)
  | creating (archive : String)
  | interruptNote (archive : String)
  | errorNote (archive : String) (msg : String)
deriving DecidableEq

/-- An error occurring during a run: the `IOError` silently passed over in
`parse_archive_history`, the `ExcInvalidFormat` it raises, an exception
raised by a tar step inside `create_archive`, or an exception raised by
`save_history`. -/
inductive ErrEvent where
  | ioSwallowed
  | loadFormat (msg : String)
  | tarRaise (archive : String) (e : PyExc)
  | saveRaise (e : PyExc)
deriving DecidableEq

/-- Environment-chosen outcome of the three tar operations of
`create_archive` (`tarfile.open`, `add`, `close`): `none` means the step
succeeds. -/
structure TarBehavior where
  openR : Option PyExc
  addR : Option PyExc
  closeR : Option PyExc

/-- The run environment: the state of the metadata file, the subdirectory
listing (name and tree, in `os.listdir` order), the outcome of tar
operations per archive name, the wall clock as a sequence of `int(time.time())`
readings, and the outcome of the final `save_history`. -/
structure Env where
  fileState : FileState
  subDirs : List (String × FSTree)
  tar : String → TarBehavior
  timeAt : Nat → Int
  saveR : Option PyExc

/-- The mutable state of a run: the in-memory History, the lines printed so
far, the archive files created (a tar file is created when `tarfile.open`
succeeds), the errors that have occurred, and how many clock readings were
taken. -/
structure RunState where
  history : History
  output : List OutMsg
  archivesOpened : List String
  events : List ErrEvent
  timeCounter : Nat

/-- `get_archive_name`. -/
def get_archive_name (sub_dir : String) : String := "z-backup-" ++ sub_dir ++ ".tar.gz"

/-- `get_last_archivized_time`: the stored watermark or the `-1` sentinel,
with its display string (`'never'` for negative values). -/
def get_last_archivized_time (sub_dir : String) (history : History) : Int × String :=
  let last := (dict_get history sub_dir).getD (-1)
  if 0 ≤ last then (last, sec_to_str_time last) else (last, "never")

/-- `create_archive`: open, fill and close the tar file, then stamp
`history[sub_dir] = int(time.time())`.  A failing step raises (second
component) and leaves the remaining steps unexecuted; the watermark is
stamped only after a successful close. -/
def create_archive (env : Env) (sub_dir archive_name : String) (st : RunState) :
    RunState × Option PyExc :=
  let b := env.tar archive_name
  match b.openR with
  | some e => ({ st with events := st.events ++ [.tarRaise archive_name e] }, some e)
  | none =>
    let st1 := { st with archivesOpened := st.archivesOpened ++ [archive_name] }
    match b.addR with
    | some e => ({ st1 with events := st1.events ++ [.tarRaise archive_name e] }, some e)
    | none =>
      match b.closeR with
      | some e => ({ st1 with events := st1.events ++ [.tarRaise archive_name e] }, some e)
      | none =>
        ({ st1 with
            history := dict_insert st1.history sub_dir (env.timeAt st1.timeCounter),
            timeCounter := st1.timeCounter + 1 }, none)

/-- `try_archive`: print the status line and run the change detector, which
prints its `was modified` note whenever it returns a hit; `if isModified:`
then tests the returned mtime for truthiness, so only a NONZERO hit prints
the `Creating archive` line and calls `create_archive` — a first qualifying
mtime of exactly `0` is falsy and the archive step is skipped. -/
def try_archive (env : Env) (sub_dir : String) (tree : FSTree) (archive_name : String)
    (st : RunState) : RunState × Option PyExc :=
  let lat := get_last_archivized_time sub_dir st.history
  let st1 := { st with output := st.output ++ [.dirStatus sub_dir lat.2] }
  match is_modified_after tree lat.1 with
  | none => (st1, none)
  | some r =>
    let st2 := { st1 with output := st1.output ++ [.modifiedNote sub_dir] }
    if r = 0 then (st2, none)
    else
      let st3 := { st2 with output := st2.output ++ [.creating archive_name] }
      create_archive env sub_dir archive_name st3

/-- The subdirectory loop of `update_archives`: process each subdirectory in
listing order; a `KeyboardInterrupt` or any other exception from
`try_archive` prints its line and breaks the loop.  The second component is
the exception that broke the loop, if any. -/
def run_subdirs (env : Env) : List (String × FSTree) → RunState → RunState × Option PyExc
  | [], st => (st, none)
  | (d, tree) :: rest, st =>
    let archive_name := get_archive_name d
    let p := try_archive env d tree archive_name st
    match p.2 with
    | none => run_subdirs env rest p.1
    | some .interrupt =>
      ({ p.1 with output := p.1.output ++ [.interruptNote archive_name] }, some .interrupt)
    | some (.err m) =>
      ({ p.1 with output := p.1.output ++ [.errorNote archive_name m] }, some (.err m))

/-- `update_archives` returns the (mutated) History state after the loop. -/
def update_archives (env : Env) (dirs : List (String × FSTree)) (st : RunState) : RunState :=
  (run_subdirs env dirs st).1

/-- An exception propagating out of `main` (the interpreter reports it and
the process dies): `ExcInvalidFormat` from the load, or whatever
`save_history` raised. -/
inductive MainExc where
  | invalidFormat (msg : String)
  | saveFailed (e : PyExc)
deriving DecidableEq

/-- The observable outcome of a run: the final in-memory state, the document
successfully written to `archive-history.xml` (or `none` when the save was
never reached or raised), and the exception that escaped `main`, if any. -/
structure RunResult where
  final : RunState
  persisted : Option (List XmlNode)
  exc : Option MainExc

/-- The state at interpreter start. -/
def initState : RunState := ⟨[], [], [], [], 0⟩

/-- The error events of the load phase: a swallowed `IOError`, or the
`ExcInvalidFormat` about to propagate. -/
def load_events (fs : FileState) : List ErrEvent :=
  match parse_archive_history fs with
  | .error m => [.loadFormat m]
  | .ok _ =>
    match fs with
    | .ioError => [.ioSwallowed]
    | _ => []

/-- `main`: load the History (an `ExcInvalidFormat` aborts the run before
any archiving), run the subdirectory loop, and persist the resulting History
with `save_history` (whose own exception propagates after the loop). -/
def main (env : Env) : RunResult :=
  match parse_archive_history env.fileState with
  | .error m =>
    { final := { initState with events := load_events env.fileState },
      persisted := none, exc := some (.invalidFormat m) }
  | .ok h0 =>
    let st0 : RunState := { initState with history := h0, events := load_events env.fileState }
    let st1 := update_archives env env.subDirs st0
    match env.saveR with
    | some e =>
      { final := { st1 with events := st1.events ++ [.saveRaise e] },
        persisted := none, exc := some (.saveFailed e) }
    | none => { final := st1, persisted := some (save_history st1.history), exc := none }

/-- The state right after a successful load, before the subdirectory loop. -/
def post_load_state (env : Env) (h0 : History) : RunState :=
  { initState with history := h0, events := load_events env.fileState }

/-- The exception `create_archive` raises for a given tar behavior: the
first failing step's exception, or `none` when all three steps succeed. -/
def create_raises (b : TarBehavior) : Option PyExc :=
  match b.openR with
  | some e => some e
  | none =>
    match b.addR with
    | some e => some e
    | none => b.closeR

/-- An error event is surfaced by a run when the handler printed its message
or the exception escaped `main` (where the interpreter reports it): the
swallowed `IOError` is never surfaced. -/
def surfaced (r : RunResult) (ev : ErrEvent) : Prop :=
  match ev with
  | .ioSwallowed => False
  | .loadFormat m => r.exc = some (.invalidFormat m)
  | .tarRaise a .interrupt => OutMsg.interruptNote a ∈ r.final.output
  | .tarRaise a (.err m) => OutMsg.errorNote a m ∈ r.final.output
  | .saveRaise e => r.exc = some (.saveFailed e)

instance (r : RunResult) (ev : ErrEvent) : Decidable (surfaced r ev) :=
  match ev with
  | .ioSwallowed => isFalse (fun h => h)
  | .loadFormat _ => inferInstanceAs (Decidable (_ = _))
  | .tarRaise a .interrupt => inferInstanceAs (Decidable (OutMsg.interruptNote a ∈ _))
  | .tarRaise a (.err m) => inferInstanceAs (Decidable (OutMsg.errorNote a m ∈ _))
  | .saveRaise _ => inferInstanceAs (Decidable (_ = _))

/-- The load-failure conditions listed by the specification sentence behind
claim C3, translated literally: the file is present and parses, and it has
more or fewer than one root element, or the root lacks a version attribute,
or some directory element lacks a `name` or a `lastArchivized` attribute, or
some `lastArchivized` value does not parse in the documented format. -/
def spec_load_failure_listed (fs : FileState) : Bool :=
  match fs with
  | .parsed doc =>
    decide (doc.length ≠ 1) ||
    (match doc with
     | [root] =>
       root.getAttribute "version" == "" ||
       (root.childNodes.filter (fun n => n.nodeName == "directory")).any (fun n =>
         n.getAttribute "name" == "" ||
         n.getAttribute "lastArchivized" == "" ||
         (parse_last_archivized (n.getAttribute "lastArchivized")).isNone)
     | _ => false)
  | _ => false

/-- The line `update_archives` prints for a tar exception before breaking. -/
def tar_note (archive : String) : PyExc → OutMsg
  | .interrupt => .interruptNote archive
  | .err m => .errorNote archive m

/-! Concrete trees, tar behaviors and environments used by witnesses and
counterexamples. -/

/-- An empty subdirectory `d` with mtime 5. -/
def tree5 : FSTree := FSTree.dir "d" 5 FSList.nil

/-- An empty subdirectory `z` whose mtime is exactly the epoch, `0`. -/
def treeZ : FSTree := FSTree.dir "z" 0 FSList.nil

/-- A subdirectory `a` containing one file. -/
def treeA : FSTree := FSTree.dir "a" 3 (FSList.cons (FSTree.file "f" 7) FSList.nil)

/-- An empty subdirectory `b` with mtime 4. -/
def treeB : FSTree := FSTree.dir "b" 4 FSList.nil

/-- An empty subdirectory `c` with mtime 9. -/
def treeC : FSTree := FSTree.dir "c" 9 FSList.nil

/-- All three tar steps succeed. -/
def tarOk : TarBehavior := ⟨none, none, none⟩

/-- `tarfile.open` raises. -/
def tarOpenFail : TarBehavior := ⟨some (.err "disk full"), none, none⟩

/-- No metadata file; one modified subdirectory; everything succeeds. -/
def envOk : Env :=
  { fileState := .ioError, subDirs := [("d", tree5)], tar := fun _ => tarOk,
    timeAt := fun _ => 100, saveR := none }

/-- Like `envOk` but the tar open raises. -/
def envOpenFail : Env := { envOk with tar := fun _ => tarOpenFail }

/-- The metadata file raises `IOError` on open; nothing else happens. -/
def envIOErr : Env :=
  { fileState := .ioError, subDirs := [], tar := fun _ => tarOk,
    timeAt := fun _ => 100, saveR := none }

/-- The metadata file is present but not well-formed XML. -/
def envMalformed : Env :=
  { fileState := .malformed "junk", subDirs := [("d", tree5)], tar := fun _ => tarOk,
    timeAt := fun _ => 100, saveR := none }

/-- Three subdirectories in listing order: archiving `a` succeeds, archiving
`b` raises, `c` comes after `b`. -/
def envABC : Env :=
  { fileState := .ioError,
    subDirs := [("a", treeA), ("b", treeB), ("c", treeC)],
    tar := fun name => if name = get_archive_name "b" then tarOpenFail else tarOk,
    timeAt := fun _ => 100, saveR := none }

/-- A stored watermark newer than everything in the tree of `d`. -/
def envUnmod : Env :=
  { fileState := .parsed (save_history [("d", 1296758094)]),
    subDirs := [("d", tree5)], tar := fun _ => tarOk,
    timeAt := fun _ => 1400000000, saveR := none }

/-- A stored watermark of `1` for `d` (so `d` counts as modified), but
`tarfile.open` raises. -/
def envC1 : Env :=
  { fileState := .parsed (save_history [("d", 1)]),
    subDirs := [("d", tree5)], tar := fun _ => tarOpenFail,
    timeAt := fun _ => 100, saveR := none }

/-! ## Calendar lemmas -/

theorem isleap_iff (y : Nat) :
    isleap y = true ↔ y % 4 = 0 ∧ (y % 100 ≠ 0 ∨ y % 400 = 0) := by
  simp [isleap]

theorem daysInYear_ge (y : Nat) : 365 ≤ daysInYear y := by
  unfold daysInYear; split <;> omega

theorem dby_succ (y : Nat) (hy : 1 ≤ y) :
    days_before_year (y + 1) = days_before_year y + daysInYear y := by
  obtain ⟨a, rfl⟩ : ∃ a, y = a + 1 := ⟨y - 1, by omega⟩
  unfold days_before_year daysInYear
  simp only [Nat.add_sub_cancel]
  by_cases c4 : 4 ∣ a + 1 <;> by_cases c100 : 100 ∣ a + 1 <;> by_cases c400 : 400 ∣ a + 1
  all_goals first
    | rw [show (a + 1) / 4 = a / 4 + 1 from by omega]
    | rw [show (a + 1) / 4 = a / 4 from by omega]
  all_goals first
    | rw [show (a + 1) / 100 = a / 100 + 1 from by omega]
    | rw [show (a + 1) / 100 = a / 100 from by omega]
  all_goals first
    | rw [show (a + 1) / 400 = a / 400 + 1 from by omega]
    | rw [show (a + 1) / 400 = a / 400 from by omega]
  all_goals first
    | (rw [if_pos (show isleap (a + 1) = true from by rw [isleap_iff]; omega)]; omega)
    | (rw [if_neg (show ¬ isleap (a + 1) = true from by rw [isleap_iff]; omega)]; omega)

theorem dby_le_dby {a b : Nat} (h1 : 1 ≤ a) (h : a ≤ b) :
    days_before_year a ≤ days_before_year b := by
  induction b, h using Nat.le_induction with
  | base => exact Nat.le_refl _
  | succ n hn ih =>
    calc days_before_year a ≤ days_before_year n := ih
      _ ≤ days_before_year (n + 1) := by
          rw [dby_succ n (le_trans h1 hn)]; omega

theorem dby_era (e : Nat) : days_before_year (400 * e + 1) = 146097 * e := by
  unfold days_before_year; omega

theorem yearFromOrd_correct :
    ∀ (fuel y n : Nat), 1 ≤ y → n / 365 < fuel →
      y ≤ (yearFromOrd fuel y n).1 ∧
      days_before_year (yearFromOrd fuel y n).1 + (yearFromOrd fuel y n).2
        = days_before_year y + n ∧
      (yearFromOrd fuel y n).2 < daysInYear (yearFromOrd fuel y n).1 := by
  intro fuel
  induction fuel with
  | zero => intro y n hy hf; omega
  | succ f ih =>
    intro y n hy hf
    simp only [yearFromOrd]
    split
    case isTrue h => exact ⟨Nat.le_refl _, rfl, h⟩
    case isFalse h =>
      have hdi := daysInYear_ge y
      have hrec := ih (y + 1) (n - daysInYear y) (by omega) (by omega)
      rw [dby_succ y hy] at hrec
      exact ⟨by omega, by omega, hrec.2.2⟩

theorem dbm_one (y : Nat) : days_before_month y 1 = 0 := by
  simp [days_before_month, days_before_month_tbl]

theorem dbm_succ (y m : Nat) (h1 : 1 ≤ m) (h2 : m ≤ 12) :
    days_before_month y (m + 1) = days_before_month y m + days_in_month y m := by
  interval_cases m <;>
    by_cases hl : isleap y = true <;>
      simp [days_before_month, days_before_month_tbl, days_in_month, month_len, hl]

theorem dbm_13 (y : Nat) : days_before_month y 13 = daysInYear y := by
  by_cases hl : isleap y = true <;>
    simp [days_before_month, days_before_month_tbl, daysInYear, hl]

theorem monthFromDoy_correct :
    ∀ (fuel y m n : Nat), 1 ≤ m → m ≤ 12 → 13 - m ≤ fuel →
      days_before_month y m + n < daysInYear y →
      1 ≤ (monthFromDoy fuel y m n).1 ∧ (monthFromDoy fuel y m n).1 ≤ 12 ∧
      days_before_month y (monthFromDoy fuel y m n).1 + (monthFromDoy fuel y m n).2
        = days_before_month y m + n ∧
      (monthFromDoy fuel y m n).2 < days_in_month y (monthFromDoy fuel y m n).1 := by
  intro fuel
  induction fuel with
  | zero => intro y m n h1 h2 hf hn; omega
  | succ f ih =>
    intro y m n h1 h2 hf hn
    simp only [monthFromDoy]
    split
    case isTrue h12 =>
      have hm : m = 12 := by omega
      subst hm
      refine ⟨h1, Nat.le_refl _, rfl, ?_⟩
      show n < days_in_month y 12
      have h13 := dbm_13 y
      have hs := dbm_succ y 12 (by omega) (by omega)
      norm_num at hs
      omega
    case isFalse h12 =>
      split
      case isTrue hlt => exact ⟨h1, h2, rfl, hlt⟩
      case isFalse hge =>
        have hs := dbm_succ y m h1 (by omega)
        have hrec := ih y (m + 1) (n - days_in_month y m)
          (by omega) (by omega) (by omega) (by omega)
        exact ⟨hrec.1, hrec.2.1, by omega, hrec.2.2.2⟩

theorem ediv_86400_le {a b : Int} (h : a ≤ b) : Int.ediv a 86400 ≤ Int.ediv b 86400 :=
  Int.ediv_le_ediv (by norm_num) h

theorem gmtime_fields (t : Int) (hlow : -62135596800 ≤ t) :
    1 ≤ (gmtime t).tm_year ∧
    1 ≤ (gmtime t).tm_mon ∧ (gmtime t).tm_mon ≤ 12 ∧
    1 ≤ (gmtime t).tm_mday ∧
    (gmtime t).tm_mday ≤ days_in_month (gmtime t).tm_year (gmtime t).tm_mon ∧
    (gmtime t).tm_hour ≤ 23 ∧ (gmtime t).tm_min ≤ 59 ∧ (gmtime t).tm_sec ≤ 59 ∧
    timegm (gmtime t).tm_year (gmtime t).tm_mon (gmtime t).tm_mday
      (gmtime t).tm_hour (gmtime t).tm_min (gmtime t).tm_sec = t ∧
    days_before_year (gmtime t).tm_year ≤ (Int.ediv t 86400 + 719162).toNat ∧
    (Int.ediv t 86400 + 719162).toNat < days_before_year ((gmtime t).tm_year + 1) := by
  have hdays : (-719162 : Int) ≤ Int.ediv t 86400 := by
    have := ediv_86400_le hlow
    norm_num at this
    exact this
  have hmod0 : 0 ≤ Int.emod t 86400 := Int.emod_nonneg t (by norm_num)
  have hmodlt : Int.emod t 86400 < 86400 := Int.emod_lt_of_pos t (by norm_num)
  have hdecomp : 86400 * Int.ediv t 86400 + Int.emod t 86400 = t := Int.ediv_add_emod t 86400
  set days := Int.ediv t 86400 with hdaysdef
  set sod := (Int.emod t 86400).toNat with hsoddef
  have hsod : (sod : Int) = Int.emod t 86400 := Int.toNat_of_nonneg hmod0
  have hsodlt : sod < 86400 := by omega
  set n := (days + 719162).toNat with hndef
  have hnint : (n : Int) = days + 719162 := Int.toNat_of_nonneg (by omega)
  have hera : n = 146097 * (n / 146097) + n % 146097 := (Nat.div_add_mod n 146097).symm
  have hrem : n % 146097 < 146097 := Nat.mod_lt _ (by norm_num)
  have hy := yearFromOrd_correct (n % 146097 / 365 + 1) (400 * (n / 146097) + 1) (n % 146097)
    (by omega) (by omega)
  rw [dby_era] at hy
  set p := yearFromOrd (n % 146097 / 365 + 1) (400 * (n / 146097) + 1) (n % 146097) with hpdef
  have hm := monthFromDoy_correct 13 p.1 1 p.2 (by omega) (by omega) (by omega)
    (by rw [dbm_one]; omega)
  rw [dbm_one] at hm
  set q := monthFromDoy 13 p.1 1 p.2 with hqdef
  have e1 : (gmtime t).tm_year = p.1 := rfl
  have e2 : (gmtime t).tm_mon = q.1 := rfl
  have e3 : (gmtime t).tm_mday = q.2 + 1 := rfl
  have e4 : (gmtime t).tm_hour = sod / 3600 := rfl
  have e5 : (gmtime t).tm_min = sod % 3600 / 60 := rfl
  have e6 : (gmtime t).tm_sec = sod % 60 := rfl
  rw [e1, e2, e3, e4, e5, e6]
  have hdbyn : days_before_year p.1 + p.2 = n := by omega
  have hdpq : days_before_year p.1 + days_before_month p.1 q.1 + q.2 = n := by omega
  refine ⟨by omega, hm.1, hm.2.1, by omega, by omega, by omega, by omega, by omega,
    ?_, ?_, ?_⟩
  · unfold timegm toordinal
    have hcast : ((days_before_year p.1 + days_before_month p.1 q.1 + 1 : Nat) : Int)
        = (n : Int) + 1 - (q.2 : Int) := by
      push_cast
      omega
    rw [hcast, hnint]
    push_cast
    have hsplit : (sod / 3600) * 3600 + (sod % 3600 / 60) * 60 + sod % 60 = sod := by omega
    omega
  · have := hy.2.2
    omega
  · rw [dby_succ p.1 (by omega)]
    omega

theorem gmtime_year_range (t : Int) (h1 : -30610224000 ≤ t) (h2 : t < 253402300800) :
    1000 ≤ (gmtime t).tm_year ∧ (gmtime t).tm_year ≤ 9999 := by
  have hf := gmtime_fields t (by omega)
  have hnlow : (364877 : Nat) ≤ (Int.ediv t 86400 + 719162).toNat := by
    have := ediv_86400_le h1
    norm_num at this
    omega
  have hnhigh : (Int.ediv t 86400 + 719162).toNat ≤ 3652058 := by
    have := ediv_86400_le (show t ≤ 253402300799 by omega)
    norm_num at this
    have hnn : (0 : Int) ≤ Int.ediv t 86400 + 719162 := by
      have := ediv_86400_le (show (-62135596800 : Int) ≤ t by omega)
      norm_num at this
      omega
    omega
  have hd1000 : days_before_year 1000 = 364877 := by decide
  have hd10000 : days_before_year 10000 = 3652059 := by decide
  constructor
  · by_contra hc
    push_neg at hc
    have : days_before_year ((gmtime t).tm_year + 1) ≤ days_before_year 1000 := by
      apply dby_le_dby (by omega) (by omega)
    omega
  · by_contra hc
    push_neg at hc
    have : days_before_year 10000 ≤ days_before_year (gmtime t).tm_year := by
      apply dby_le_dby (by omega) (by omega)
    omega

theorem days_in_month_le (y m : Nat) : days_in_month y m ≤ 31 := by
  unfold days_in_month month_len
  split
  · omega
  · split <;> omega

/-! ## Formatting and parsing lemmas -/

theorem fmt_nat_fuel_invar :
    ∀ (f1 f2 n : Nat), n < f1 → n < f2 → fmt_nat_fuel f1 n = fmt_nat_fuel f2 n := by
  intro f1
  induction f1 with
  | zero => intro f2 n h1 h2; omega
  | succ g ih =>
    intro f2 n h1 h2
    obtain ⟨g2, rfl⟩ : ∃ g2, f2 = g2 + 1 := ⟨f2 - 1, by omega⟩
    by_cases h : n < 10
    · simp only [fmt_nat_fuel, if_pos h]
    · simp only [fmt_nat_fuel, if_neg h]
      rw [ih g2 (n / 10) (by omega) (by omega)]

theorem fmt_step (n : Nat) (h : 10 ≤ n) (f : Nat) (hf : n < f) :
    fmt_nat_fuel f n = fmt_nat_fuel (n / 10 + 1) (n / 10) ++ [digitChar (n % 10)] := by
  obtain ⟨g, rfl⟩ : ∃ g, f = g + 1 := ⟨f - 1, by omega⟩
  have hstep : fmt_nat_fuel (g + 1) n
      = if n < 10 then [digitChar n] else fmt_nat_fuel g (n / 10) ++ [digitChar (n % 10)] := rfl
  rw [hstep, if_neg (show ¬ n < 10 by omega)]
  rw [fmt_nat_fuel_invar g (n / 10 + 1) (n / 10) (by omega) (by omega)]

theorem fmt_nat_four (y : Nat) (h1 : 1000 ≤ y) (h2 : y ≤ 9999) :
    fmt_nat y = [digitChar (y / 1000), digitChar (y / 100 % 10),
                 digitChar (y / 10 % 10), digitChar (y % 10)] := by
  unfold fmt_nat
  rw [fmt_step y (by omega) _ (by omega)]
  rw [fmt_step (y / 10) (by omega) _ (by omega)]
  rw [fmt_step (y / 10 / 10) (by omega) _ (by omega)]
  simp only [fmt_nat_fuel, if_pos (show y / 10 / 10 / 10 < 10 by omega)]
  rw [show y / 10 / 10 / 10 = y / 1000 from by omega,
      show y / 10 / 10 % 10 = y / 100 % 10 from by omega]
  simp

theorem readDigit_digitChar (k : Nat) (hk : k < 10) : readDigit (digitChar k) = some k := by
  interval_cases k <;> decide

theorem digitChar_le_iff (a b : Nat) (ha : a < 10) (hb : b < 10) :
    digitChar a ≤ digitChar b ↔ a ≤ b := by
  interval_cases a <;> interval_cases b <;> decide

theorem digitChar_beq (a b : Nat) (ha : a < 10) (hb : b < 10) :
    (digitChar a == digitChar b) = decide (a = b) := by
  interval_cases a <;> interval_cases b <;> decide

theorem inRangeC_digitChar (lo hi k : Nat) (hlo : lo < 10) (hhi : hi < 10) (hk : k < 10) :
    inRangeC (digitChar lo) (digitChar hi) (digitChar k)
      = (decide (lo ≤ k) && decide (k ≤ hi)) := by
  unfold inRangeC
  rw [decide_eq_decide.mpr (digitChar_le_iff lo k hlo hk),
      decide_eq_decide.mpr (digitChar_le_iff k hi hk hhi)]

theorem isDigCh_digitChar (k : Nat) (hk : k < 10) : isDigCh (digitChar k) = true := by
  interval_cases k <;> decide

theorem isWsCh_digitChar (k : Nat) (hk : k < 10) : isWsCh (digitChar k) = false := by
  interval_cases k <;> decide

theorem tryAlts_head_some (a : List Char → Option (Nat × List Char))
    (alts : List (List Char → Option (Nat × List Char))) (cs : List Char)
    (k : Nat → List Char → Option Tm) (v : Nat) (cs2 : List Char) (r : Tm)
    (h1 : a cs = some (v, cs2)) (h2 : k v cs2 = some r) :
    tryAlts (a :: alts) cs k = some r := by
  show (match a cs with
        | some (v, cs2) =>
          match k v cs2 with
          | some r => some r
          | none => tryAlts alts cs k
        | none => tryAlts alts cs k) = some r
  rw [h1]
  dsimp only
  rw [h2]

theorem tryAlts_head_none (a : List Char → Option (Nat × List Char))
    (alts : List (List Char → Option (Nat × List Char))) (cs : List Char)
    (k : Nat → List Char → Option Tm) (h1 : a cs = none) :
    tryAlts (a :: alts) cs k = tryAlts alts cs k := by
  show (match a cs with
        | some (v, cs2) =>
          match k v cs2 with
          | some r => some r
          | none => tryAlts alts cs k
        | none => tryAlts alts cs k) = tryAlts alts cs k
  rw [h1]

theorem pad2_cons (v : Nat) (rest : List Char) :
    pad2 v ++ rest = digitChar (v / 10 % 10) :: digitChar (v % 10) :: rest := rfl

theorem matchTwo_pad2 (ok1 ok2 : Char → Bool) (v : Nat) (hv : v < 100) (rest : List Char)
    (h1 : ok1 (digitChar (v / 10 % 10)) = true) (h2 : ok2 (digitChar (v % 10)) = true) :
    matchTwo ok1 ok2 (pad2 v ++ rest) = some (v, rest) := by
  rw [pad2_cons]
  show (if ok1 (digitChar (v / 10 % 10)) && ok2 (digitChar (v % 10)) then
        match readDigit (digitChar (v / 10 % 10)), readDigit (digitChar (v % 10)) with
        | some x, some y => some (x * 10 + y, rest)
        | _, _ => none
      else none) = some (v, rest)
  rw [h1, h2, readDigit_digitChar (v / 10 % 10) (by omega), readDigit_digitChar (v % 10) (by omega)]
  show some (v / 10 % 10 * 10 + v % 10, rest) = some (v, rest)
  rw [show v / 10 % 10 * 10 + v % 10 = v from by omega]

theorem matchTwo_fail (ok1 ok2 : Char → Bool) (a b : Char) (rest : List Char)
    (h : ok1 a = false) :
    matchTwo ok1 ok2 (a :: b :: rest) = none := by
  show (if ok1 a && ok2 b then
        match readDigit a, readDigit b with
        | some x, some y => some (x * 10 + y, rest)
        | _, _ => none
      else none) = none
  rw [h]
  simp

theorem tryAlts_month (v : Nat) (h1v : 1 ≤ v) (h2v : v ≤ 12) (rest : List Char)
    (k : Nat → List Char → Option Tm) (r : Tm) (hk : k v rest = some r) :
    tryAlts monthAlts (pad2 v ++ rest) k = some r := by
  unfold monthAlts
  rcases Nat.lt_or_ge v 10 with hv | hv
  · rw [tryAlts_head_none _ _ _ _ ?fail]
    case fail =>
      rw [pad2_cons]
      apply matchTwo_fail
      rw [show ('1' : Char) = digitChar 1 from rfl, digitChar_beq _ 1 (by omega) (by omega)]
      simp
      omega
    apply tryAlts_head_some _ _ _ _ v rest r ?ok hk
    case ok =>
      apply matchTwo_pad2 _ _ _ (by omega) _ ?c1 ?c2
      case c1 =>
        rw [show ('0' : Char) = digitChar 0 from rfl, digitChar_beq _ 0 (by omega) (by omega)]
        simp
        omega
      case c2 =>
        rw [show ('1' : Char) = digitChar 1 from rfl, show ('9' : Char) = digitChar 9 from rfl,
            inRangeC_digitChar 1 9 _ (by omega) (by omega) (by omega)]
        simp
        omega
  · apply tryAlts_head_some _ _ _ _ v rest r ?ok hk
    case ok =>
      apply matchTwo_pad2 _ _ _ (by omega) _ ?c1 ?c2
      case c1 =>
        rw [show v / 10 % 10 = 1 from by omega]
        rw [show ('1' : Char) = digitChar 1 from rfl, digitChar_beq 1 1 (by omega) (by omega)]
        simp
      case c2 =>
        rw [show ('0' : Char) = digitChar 0 from rfl, show ('2' : Char) = digitChar 2 from rfl,
            inRangeC_digitChar 0 2 _ (by omega) (by omega) (by omega)]
        simp
        omega

theorem tryAlts_day (v : Nat) (h1v : 1 ≤ v) (h2v : v ≤ 31) (rest : List Char)
    (k : Nat → List Char → Option Tm) (r : Tm) (hk : k v rest = some r) :
    tryAlts dayAlts (pad2 v ++ rest) k = some r := by
  unfold dayAlts
  rcases Nat.lt_or_ge v 10 with hv | hv
  · rw [tryAlts_head_none _ _ _ _ ?f1]
    case f1 =>
      rw [pad2_cons]
      apply matchTwo_fail
      rw [show ('3' : Char) = digitChar 3 from rfl, digitChar_beq _ 3 (by omega) (by omega)]
      simp
      omega
    rw [tryAlts_head_none _ _ _ _ ?f2]
    case f2 =>
      rw [pad2_cons]
      apply matchTwo_fail
      rw [show ('1' : Char) = digitChar 1 from rfl, show ('2' : Char) = digitChar 2 from rfl,
          inRangeC_digitChar 1 2 _ (by omega) (by omega) (by omega)]
      simp
      omega
    apply tryAlts_head_some _ _ _ _ v rest r ?ok hk
    case ok =>
      apply matchTwo_pad2 _ _ _ (by omega) _ ?c1 ?c2
      case c1 =>
        rw [show ('0' : Char) = digitChar 0 from rfl, digitChar_beq _ 0 (by omega) (by omega)]
        simp
        omega
      case c2 =>
        rw [show ('1' : Char) = digitChar 1 from rfl, show ('9' : Char) = digitChar 9 from rfl,
            inRangeC_digitChar 1 9 _ (by omega) (by omega) (by omega)]
        simp
        omega
  · rcases Nat.lt_or_ge v 30 with hv30 | hv30
    · rw [tryAlts_head_none _ _ _ _ ?f1]
      case f1 =>
        rw [pad2_cons]
        apply matchTwo_fail
        rw [show ('3' : Char) = digitChar 3 from rfl, digitChar_beq _ 3 (by omega) (by omega)]
        simp
        omega
      apply tryAlts_head_some _ _ _ _ v rest r ?ok hk
      case ok =>
        apply matchTwo_pad2 _ _ _ (by omega) _ ?c1 ?c2
        case c1 =>
          rw [show ('1' : Char) = digitChar 1 from rfl, show ('2' : Char) = digitChar 2 from rfl,
              inRangeC_digitChar 1 2 _ (by omega) (by omega) (by omega)]
          simp
          omega
        case c2 => exact isDigCh_digitChar _ (by omega)
    · apply tryAlts_head_some _ _ _ _ v rest r ?ok hk
      case ok =>
        apply matchTwo_pad2 _ _ _ (by omega) _ ?c1 ?c2
        case c1 =>
          rw [show v / 10 % 10 = 3 from by omega]
          rw [show ('3' : Char) = digitChar 3 from rfl, digitChar_beq 3 3 (by omega) (by omega)]
          simp
        case c2 =>
          rw [show ('0' : Char) = digitChar 0 from rfl, show ('1' : Char) = digitChar 1 from rfl,
              inRangeC_digitChar 0 1 _ (by omega) (by omega) (by omega)]
          simp
          omega

theorem tryAlts_hour (v : Nat) (hv : v ≤ 23) (rest : List Char)
    (k : Nat → List Char → Option Tm) (r : Tm) (hk : k v rest = some r) :
    tryAlts hourAlts (pad2 v ++ rest) k = some r := by
  unfold hourAlts
  rcases Nat.lt_or_ge v 20 with h20 | h20
  · rw [tryAlts_head_none _ _ _ _ ?f1]
    case f1 =>
      rw [pad2_cons]
      apply matchTwo_fail
      rw [show ('2' : Char) = digitChar 2 from rfl, digitChar_beq _ 2 (by omega) (by omega)]
      simp
      omega
    apply tryAlts_head_some _ _ _ _ v rest r ?ok hk
    case ok =>
      apply matchTwo_pad2 _ _ _ (by omega) _ ?c1 ?c2
      case c1 =>
        rw [show ('0' : Char) = digitChar 0 from rfl, show ('1' : Char) = digitChar 1 from rfl,
            inRangeC_digitChar 0 1 _ (by omega) (by omega) (by omega)]
        simp
        omega
      case c2 => exact isDigCh_digitChar _ (by omega)
  · apply tryAlts_head_some _ _ _ _ v rest r ?ok hk
    case ok =>
      apply matchTwo_pad2 _ _ _ (by omega) _ ?c1 ?c2
      case c1 =>
        rw [show v / 10 % 10 = 2 from by omega]
        rw [show ('2' : Char) = digitChar 2 from rfl, digitChar_beq 2 2 (by omega) (by omega)]
        simp
      case c2 =>
        rw [show ('0' : Char) = digitChar 0 from rfl, show ('3' : Char) = digitChar 3 from rfl,
            inRangeC_digitChar 0 3 _ (by omega) (by omega) (by omega)]
        simp
        omega

theorem tryAlts_min (v : Nat) (hv : v ≤ 59) (rest : List Char)
    (k : Nat → List Char → Option Tm) (r : Tm) (hk : k v rest = some r) :
    tryAlts minAlts (pad2 v ++ rest) k = some r := by
  unfold minAlts
  apply tryAlts_head_some _ _ _ _ v rest r ?ok hk
  case ok =>
    apply matchTwo_pad2 _ _ _ (by omega) _ ?c1 ?c2
    case c1 =>
      rw [show ('0' : Char) = digitChar 0 from rfl, show ('5' : Char) = digitChar 5 from rfl,
          inRangeC_digitChar 0 5 _ (by omega) (by omega) (by omega)]
      simp
      omega
    case c2 => exact isDigCh_digitChar _ (by omega)

theorem tryAlts_sec (v : Nat) (hv : v ≤ 59) (rest : List Char)
    (k : Nat → List Char → Option Tm) (r : Tm) (hk : k v rest = some r) :
    tryAlts secAlts (pad2 v ++ rest) k = some r := by
  unfold secAlts
  rw [tryAlts_head_none _ _ _ _ ?f1]
  case f1 =>
    rw [pad2_cons]
    apply matchTwo_fail
    rw [show ('6' : Char) = digitChar 6 from rfl, digitChar_beq _ 6 (by omega) (by omega)]
    simp
    omega
  apply tryAlts_head_some _ _ _ _ v rest r ?ok hk
  case ok =>
    apply matchTwo_pad2 _ _ _ (by omega) _ ?c1 ?c2
    case c1 =>
      rw [show ('0' : Char) = digitChar 0 from rfl, show ('5' : Char) = digitChar 5 from rfl,
          inRangeC_digitChar 0 5 _ (by omega) (by omega) (by omega)]
      simp
      omega
    case c2 => exact isDigCh_digitChar _ (by omega)

theorem read4_fmt (y : Nat) (h1 : 1000 ≤ y) (h2 : y ≤ 9999) (rest : List Char) :
    read4 (fmt_nat y ++ rest) = some (y, rest) := by
  rw [fmt_nat_four y h1 h2]
  show read4 (digitChar (y / 1000) :: digitChar (y / 100 % 10)
    :: digitChar (y / 10 % 10) :: digitChar (y % 10) :: rest) = some (y, rest)
  simp only [read4]
  rw [readDigit_digitChar (y / 1000) (by omega), readDigit_digitChar (y / 100 % 10) (by omega),
      readDigit_digitChar (y / 10 % 10) (by omega), readDigit_digitChar (y % 10) (by omega)]
  dsimp only
  rw [show ((y / 1000 * 10 + y / 100 % 10) * 10 + y / 10 % 10) * 10 + y % 10 = y from by omega]

theorem litCh_eq (c : Char) (rest : List Char) (k : List Char → Option Tm) :
    litCh c (c :: rest) k = k rest := by
  unfold litCh
  simp

theorem wsPlus_single (a : Char) (rest : List Char) (k : List Char → Option Tm)
    (h : isWsCh a = false) :
    wsPlus (' ' :: a :: rest) k = k (a :: rest) := by
  show (if isWsCh ' ' = true then k ((a :: rest).dropWhile isWsCh) else none) = k (a :: rest)
  rw [if_pos (show isWsCh ' ' = true from rfl)]
  rw [List.dropWhile_cons, if_neg (by rw [h]; simp)]

theorem wsPlus_pad2 (v : Nat) (rest : List Char) (k : List Char → Option Tm) :
    wsPlus (' ' :: (pad2 v ++ rest)) k = k (pad2 v ++ rest) := by
  show (if isWsCh ' ' = true then k ((pad2 v ++ rest).dropWhile isWsCh) else none)
    = k (pad2 v ++ rest)
  rw [if_pos (show isWsCh ' ' = true from rfl)]
  rw [pad2_cons, List.dropWhile_cons,
      if_neg (by rw [isWsCh_digitChar _ (by omega)]; simp)]

theorem litCI_eq (c1 c2 : Char) (rest : List Char) (k : List Char → Option Tm) :
    litCI c1 c2 (c1 :: rest) k = k rest := by
  unfold litCI
  simp

theorem strptime_fmt (tm : Tm)
    (hy1 : 1000 ≤ tm.tm_year) (hy2 : tm.tm_year ≤ 9999)
    (hmo1 : 1 ≤ tm.tm_mon) (hmo2 : tm.tm_mon ≤ 12)
    (hd1 : 1 ≤ tm.tm_mday) (hd2 : tm.tm_mday ≤ 31)
    (hh : tm.tm_hour ≤ 23) (hmi : tm.tm_min ≤ 59) (hs : tm.tm_sec ≤ 59) :
    strptime_gmt (fmt_tm_chars tm) = some tm := by
  obtain ⟨y, mo, d, h, mi, s⟩ := tm
  dsimp only at hy1 hy2 hmo1 hmo2 hd1 hd2 hh hmi hs
  unfold fmt_tm_chars strptime_gmt
  dsimp only
  simp only [List.append_assoc, List.cons_append]
  rw [read4_fmt y hy1 hy2]
  dsimp only
  rw [litCh_eq]
  apply tryAlts_month mo hmo1 hmo2 _ _ _ ?k1
  case k1 =>
    dsimp only
    rw [litCh_eq]
    apply tryAlts_day d hd1 hd2 _ _ _ ?k2
    case k2 =>
      dsimp only
      rw [wsPlus_pad2]
      apply tryAlts_hour h hh _ _ _ ?k3
      case k3 =>
        dsimp only
        rw [litCh_eq]
        apply tryAlts_min mi hmi _ _ _ ?k4
        case k4 =>
          dsimp only
          rw [litCh_eq]
          apply tryAlts_sec s hs _ _ _ ?k5
          case k5 =>
            dsimp only
            rw [wsPlus_single 'G' ['M', 'T'] _ (show isWsCh 'G' = false from rfl)]
            rw [litCI_eq, litCI_eq, litCI_eq]

theorem parse_sec_roundtrip (t : Int) (hlo : -30610224000 ≤ t) (hhi : t < 253402300800) :
    parse_last_archivized (sec_to_str_time t) = some t := by
  have hf := gmtime_fields t (by omega)
  have hr := gmtime_year_range t hlo hhi
  have hd31 := days_in_month_le (gmtime t).tm_year (gmtime t).tm_mon
  unfold parse_last_archivized sec_to_str_time
  rw [show (String.mk (fmt_tm_chars (gmtime t))).data = fmt_tm_chars (gmtime t) from rfl]
  rw [strptime_fmt (gmtime t) (by omega) (by omega) (by omega) (by omega)
    (by omega) (by omega) (by omega) (by omega) (by omega)]
  simp only
  rw [if_pos ⟨by omega, by omega⟩]
  exact congrArg some (by omega)

/-! ## History store lemmas -/

theorem dict_insert_fresh (h : History) (k : String) (v : Int)
    (hk : k ∉ h.map Prod.fst) : dict_insert h k v = h ++ [(k, v)] := by
  have hna : h.any (fun p => p.1 == k) = false := by
    rw [List.any_eq_false]
    intro p hp
    simp only [beq_iff_eq]
    intro he
    exact hk (List.mem_map.mpr ⟨p, hp, he⟩)
  unfold dict_insert
  rw [hna]
  simp

theorem find?_insert_map_self (h : History) (k : String) (v : Int)
    (hmem : h.any (fun p => p.1 == k) = true) :
    (h.map (fun p => if p.1 = k then (k, v) else p)).find? (fun p => p.1 == k)
      = some (k, v) := by
  induction h with
  | nil => simp at hmem
  | cons p t ih =>
    by_cases hpk : p.1 = k
    · simp only [List.map_cons, if_pos hpk]
      rw [List.find?_cons_of_pos _ (by simp)]
    · simp only [List.map_cons, if_neg hpk]
      rw [List.find?_cons_of_neg _ (by simpa using hpk)]
      apply ih
      simp only [List.any_cons, Bool.or_eq_true] at hmem
      rcases hmem with h1 | h1
      · exact absurd (by simpa using h1) hpk
      · exact h1

theorem find?_insert_map_ne (h : History) (k x : String) (v : Int) (hne : x ≠ k) :
    (h.map (fun p => if p.1 = k then (k, v) else p)).find? (fun p => p.1 == x)
      = h.find? (fun p => p.1 == x) := by
  induction h with
  | nil => rfl
  | cons p t ih =>
    by_cases hpk : p.1 = k
    · simp only [List.map_cons, if_pos hpk]
      rw [@List.find?_cons_of_neg _ (fun q => q.1 == x) (k, v) _
            (by simp only [beq_iff_eq]; exact fun he => hne he.symm)]
      rw [@List.find?_cons_of_neg _ (fun q => q.1 == x) p _
            (by simp only [beq_iff_eq]; rw [hpk]; exact fun he => hne he.symm)]
      exact ih
    · simp only [List.map_cons, if_neg hpk]
      by_cases hpx : p.1 = x
      · rw [List.find?_cons_of_pos _ (by simpa using hpx),
            List.find?_cons_of_pos _ (by simpa using hpx)]
      · rw [List.find?_cons_of_neg _ (by simpa using hpx),
            List.find?_cons_of_neg _ (by simpa using hpx)]
        exact ih

theorem dict_get_insert_self (h : History) (k : String) (v : Int) :
    dict_get (dict_insert h k v) k = some v := by
  unfold dict_insert dict_get
  by_cases hc : h.any (fun p => p.1 == k) = true
  · rw [if_pos hc, find?_insert_map_self h k v hc]
    rfl
  · rw [if_neg hc, List.find?_append]
    have hnone : h.find? (fun p => p.1 == k) = none := by
      rw [List.find?_eq_none]
      intro p hp
      simp only [beq_iff_eq]
      intro he
      exact hc (List.any_eq_true.mpr ⟨p, hp, by simpa using he⟩)
    rw [hnone]
    simp

theorem dict_get_insert_ne (h : History) (k x : String) (v : Int) (hne : x ≠ k) :
    dict_get (dict_insert h k v) x = dict_get h x := by
  unfold dict_insert dict_get
  by_cases hc : h.any (fun p => p.1 == k) = true
  · rw [if_pos hc, find?_insert_map_ne h k x v hne]
  · rw [if_neg hc, List.find?_append]
    have hone : [(k, v)].find? (fun p => p.1 == x) = none := by
      rw [@List.find?_cons_of_neg _ (fun q => q.1 == x) (k, v) _
        (by simp only [beq_iff_eq]; exact fun he => hne he.symm)]
      rfl
    rw [hone]
    cases hfind : h.find? (fun p => p.1 == x) <;> simp

theorem sec_to_str_ne_empty (t : Int) : sec_to_str_time t ≠ "" := by
  intro hc
  have hdata := congrArg String.data hc
  simp only [sec_to_str_time] at hdata
  unfold fmt_tm_chars at hdata
  simp [List.append_eq_nil] at hdata

theorem getAttr_dir_tag_name (k : String) (v : Int) :
    (create_dir_tag k v).getAttribute "name" = k := by
  simp [create_dir_tag, XmlNode.getAttribute, List.lookup]

theorem getAttr_dir_tag_last (k : String) (v : Int) :
    (create_dir_tag k v).getAttribute "lastArchivized" = sec_to_str_time v := by
  simp [create_dir_tag, XmlNode.getAttribute, List.lookup]

theorem parse_dir_node_tag (k : String) (v : Int) (acc : History)
    (hk : k ≠ "") (h1 : -30610224000 ≤ v) (h2 : v < 253402300800) :
    parse_dir_node (create_dir_tag k v) acc = .ok (dict_insert acc k v) := by
  unfold parse_dir_node
  rw [getAttr_dir_tag_name, getAttr_dir_tag_last]
  rw [if_neg hk, if_neg (sec_to_str_ne_empty v)]
  rw [parse_sec_roundtrip v h1 h2]

theorem save_children_filter (h : History) :
    (((h.map (fun p => [XmlNode.text "\n    ", create_dir_tag p.1 p.2])).flatten
      ++ [XmlNode.text "\n"]).filter (fun n => n.nodeName == "directory"))
      = h.map (fun p => create_dir_tag p.1 p.2) := by
  induction h with
  | nil => rfl
  | cons p t ih =>
    simp only [List.map_cons, List.flatten_cons, List.cons_append, List.append_assoc]
    rw [List.filter_cons, List.filter_cons]
    rw [show ((XmlNode.text "\n    ").nodeName == "directory") = false from rfl]
    rw [show ((create_dir_tag p.1 p.2).nodeName == "directory") = true from rfl]
    simp only [List.map_cons]
    rw [← ih]
    simp [List.append_assoc]

theorem parse_fold_append (l : History) :
    ∀ acc : History,
      (∀ p ∈ l, p.1 ≠ "") →
      (∀ p ∈ l, -30610224000 ≤ p.2 ∧ p.2 < 253402300800) →
      (∀ p ∈ l, p.1 ∉ acc.map Prod.fst) →
      (l.map Prod.fst).Nodup →
      (l.map (fun p => create_dir_tag p.1 p.2)).foldlM (fun h n => parse_dir_node n h) acc
        = .ok (acc ++ l) := by
  induction l with
  | nil =>
    intro acc _ _ _ _
    simp only [List.map_nil, List.foldlM_nil, List.append_nil]
    rfl
  | cons p t ih =>
    intro acc hkeys hrange hfresh hnodup
    simp only [List.map_cons, List.foldlM_cons]
    rw [parse_dir_node_tag p.1 p.2 acc (hkeys p (by simp)) (hrange p (by simp)).1
        (hrange p (by simp)).2]
    rw [dict_insert_fresh acc p.1 p.2 (hfresh p (by simp))]
    show (t.map (fun p => create_dir_tag p.1 p.2)).foldlM (fun h n => parse_dir_node n h)
        (acc ++ [(p.1, p.2)]) = .ok (acc ++ p :: t)
    rw [ih (acc ++ [(p.1, p.2)]) (fun q hq => hkeys q (by simp [hq]))
        (fun q hq => hrange q (by simp [hq])) ?fresh ?nodup]
    case fresh =>
      intro q hq
      simp only [List.map_append, List.map_cons, List.map_nil, List.mem_append]
      rintro (hmem | hmem)
      · exact hfresh q (by simp [hq]) hmem
      · simp only [List.mem_singleton] at hmem
        simp only [List.map_cons, List.nodup_cons] at hnodup
        exact hnodup.1 (hmem ▸ List.mem_map.mpr ⟨q, hq, rfl⟩)
    case nodup =>
      simp only [List.map_cons, List.nodup_cons] at hnodup
      exact hnodup.2
    simp

theorem get_dir_nodes_save (h : History) :
    get_dir_nodes (save_history h) = .ok (h.map (fun p => create_dir_tag p.1 p.2)) := by
  have e1 : get_dir_nodes (save_history h)
      = .ok ((((h.map (fun p => [XmlNode.text "\n    ", create_dir_tag p.1 p.2])).flatten
          ++ [XmlNode.text "\n"])).filter (fun n => n.nodeName == "directory")) := rfl
  rw [e1, save_children_filter h]

/-- C4 (amended) round trip: for every History mapping (no duplicate keys)
whose keys are non-empty and whose values are timestamps of the years
1000-9999 (`-30610224000 ≤ v < 253402300800`, the range on which the
four-digit `%Y` field of the metadata format is faithful), running
`save_history` and then `parse_archive_history` on the document it wrote
yields exactly the same directory names and second-precision timestamps. -/
theorem c4_save_load_roundtrip (h : History)
    (hnodup : (h.map Prod.fst).Nodup)
    (hkeys : ∀ p ∈ h, p.1 ≠ "")
    (hrange : ∀ p ∈ h, -30610224000 ≤ p.2 ∧ p.2 < 253402300800) :
    parse_archive_history (.parsed (save_history h)) = .ok h := by
  have e0 : parse_archive_history (.parsed (save_history h))
      = match get_dir_nodes (save_history h) with
        | .error e => .error e
        | .ok nodes => nodes.foldlM (fun h n => parse_dir_node n h) [] := rfl
  rw [e0, get_dir_nodes_save h]
  dsimp only
  rw [parse_fold_append h [] hkeys hrange (by simp) hnodup]
  simp

/-- C4 witness: the round trip at the docstring's own example,
`dir1 ↦ 2011-02-03 18:34:54 GMT` (epoch 1296758094). -/
theorem c4_save_load_roundtrip_witness :
    parse_archive_history (.parsed (save_history [("dir1", 1296758094)]))
      = .ok [("dir1", 1296758094)] :=
  c4_save_load_roundtrip [("dir1", 1296758094)] (by decide) (by decide) (by decide)

/-- C4 counterexample: the round trip fails as stated for integer epoch
seconds outside the four-digit-year range — at `253402300800`
(`10000-01-01`), `strftime` writes a five-digit year that the exactly-four-
digit `%Y` of `strptime` rejects, so the reload raises instead of returning
the same History — and it also fails for the empty directory name, whose
written `name` attribute reads back as missing. -/
theorem c4_counterexample :
    parse_archive_history (.parsed (save_history [("d", 253402300800)]))
        ≠ .ok [("d", 253402300800)]
    ∧ parse_archive_history (.parsed (save_history [("", 0)])) ≠ .ok [("", 0)] := by
  constructor
  · intro hc
    have hi : isErr (parse_archive_history (.parsed (save_history [("d", 253402300800)])))
        = true := by decide
    rw [hc] at hi
    simp [isErr] at hi
  · intro hc
    have hi : isErr (parse_archive_history (.parsed (save_history [("", 0)]))) = true := by
      decide
    rw [hc] at hi
    simp [isErr] at hi

theorem except_bind_error (e : String) (k : History → Except String History) :
    (Except.error e >>= k : Except String History) = Except.error e := rfl

theorem foldl_parse_error_iff (nodes : List XmlNode) :
    ∀ acc : History,
      isErr (nodes.foldlM (fun h n => parse_dir_node n h) acc) = true
        ↔ nodes.any (fun n =>
            n.getAttribute "name" == "" ||
            n.getAttribute "lastArchivized" == "" ||
            (parse_last_archivized (n.getAttribute "lastArchivized")).isNone) = true := by
  induction nodes with
  | nil =>
    intro acc
    simp only [List.foldlM_nil, List.any_nil]
    show isErr (.ok acc) = true ↔ false = true
    simp [isErr]
  | cons n t ih =>
    intro acc
    rw [List.foldlM_cons, List.any_cons]
    by_cases b1 : n.getAttribute "name" = ""
    · have he : parse_dir_node n acc = .error "Missing name attribute for directory" := by
        unfold parse_dir_node
        rw [if_pos b1]
      rw [he, except_bind_error]
      simp [isErr, b1]
    · by_cases b2 : n.getAttribute "lastArchivized" = ""
      · have he : parse_dir_node n acc
            = .error "Missing lastArchivized attribute for directory" := by
          unfold parse_dir_node
          rw [if_neg b1, if_pos b2]
        rw [he, except_bind_error]
        simp [isErr, b1, b2]
      · cases hp : parse_last_archivized (n.getAttribute "lastArchivized") with
        | none =>
          have he : parse_dir_node n acc
              = .error ("Invalid value [" ++ n.getAttribute "lastArchivized"
                  ++ "] for attribute lastArchivized") := by
            unfold parse_dir_node
            rw [if_neg b1, if_neg b2, hp]
          rw [he, except_bind_error]
          simp [isErr, b1, b2, hp]
        | some v =>
          have he : parse_dir_node n acc
              = .ok (dict_insert acc (n.getAttribute "name") v) := by
            unfold parse_dir_node
            rw [if_neg b1, if_neg b2, hp]
          rw [he]
          rw [show ((Except.ok (dict_insert acc (n.getAttribute "name") v)
              : Except String History) >>= fun h => t.foldlM (fun h n => parse_dir_node n h) h)
            = t.foldlM (fun h n => parse_dir_node n h)
                (dict_insert acc (n.getAttribute "name") v) from rfl]
          rw [ih (dict_insert acc (n.getAttribute "name") v)]
          simp [b1, b2, hp]

/-- C3 (amended): `load()` raises `InvalidFormatError` exactly when the
metadata file is present and either is not well-formed XML, or contains more
or fewer than one root element, or the root element lacks a version
attribute, or some directory element lacks a `name` or a `lastArchivized`
attribute, or some `lastArchivized` value does not parse as
`YYYY-MM-DD HH:MM:SS GMT`; and when opening the file raises `IOError` (in
particular when it is absent), `load()` raises nothing and returns an empty
History. -/
theorem c3_load_failure_iff (fs : FileState) :
    (isErr (parse_archive_history fs) = true
      ↔ ((∃ m, fs = FileState.malformed m) ∨ spec_load_failure_listed fs = true))
    ∧ parse_archive_history FileState.ioError = .ok [] := by
  refine ⟨?_, rfl⟩
  cases fs with
  | ioError =>
    show isErr (.ok []) = true ↔ _
    simp [isErr, spec_load_failure_listed]
  | malformed m =>
    show isErr (.error _) = true ↔ _
    simp [isErr]
  | parsed doc =>
    have hnem : ¬ ∃ m, FileState.parsed doc = FileState.malformed m := by
      rintro ⟨m, hm⟩
      exact FileState.noConfusion hm
    simp only [hnem, false_or, iff_false, not_exists, exists_false]
    rcases doc with _ | ⟨root, _ | ⟨r2, t2⟩⟩
    · show isErr (.error _) = true ↔ _
      simp [isErr, spec_load_failure_listed]
    · by_cases hv : root.getAttribute "version" = ""
      · have he : parse_archive_history (.parsed [root]) = .error
            "Lack of version attribute in metadata file" := by
          unfold parse_archive_history get_dir_nodes
          dsimp only
          rw [if_pos hv]
        rw [he]
        show isErr (.error _) = true ↔ _
        simp [isErr, spec_load_failure_listed, hv]
      · have he : parse_archive_history (.parsed [root])
            = (root.childNodes.filter (fun n => n.nodeName == "directory")).foldlM
                (fun h n => parse_dir_node n h) [] := by
          unfold parse_archive_history get_dir_nodes
          dsimp only
          rw [if_neg hv]
        rw [he, foldl_parse_error_iff]
        simp [spec_load_failure_listed, hv]
    · show isErr (.error _) = true ↔ _
      simp [isErr, spec_load_failure_listed]

/-- C3 counterexample: a present but malformed metadata file (`ExpatError`
from the XML parser) makes `load()` raise `InvalidFormatError` even though
none of the failure conditions listed by the claim holds, so the claim's
"exactly when" fails on it. -/
theorem c3_counterexample :
    isErr (parse_archive_history (FileState.malformed "junk")) = true
    ∧ spec_load_failure_listed (FileState.malformed "junk") = false :=
  ⟨rfl, rfl⟩

/-! ## Change detector lemmas -/

mutual
theorem is_modified_after_eq_find (t : FSTree) (wm : Int) :
    is_modified_after t wm = (inspected_mtimes t).find? (fun m => decide (wm < m)) :=
  match t with
  | .file _ _ => rfl
  | .dir n m cs => by
    show (if wm < m then some m
        else match first_new_file cs.toList wm with
          | some r => some r
          | none => walk_children cs wm)
      = ((m :: (file_mtimes cs.toList ++ inspected_children cs)).find?
          (fun x => decide (wm < x)))
    rw [List.find?_cons]
    by_cases hm : wm < m
    · rw [if_pos hm, show (decide (wm < m)) = true from by simpa using hm]
    · rw [if_neg hm, show (decide (wm < m)) = false from by simpa using hm]
      show (match first_new_file cs.toList wm with
            | some r => some r
            | none => walk_children cs wm)
          = ((file_mtimes cs.toList ++ inspected_children cs).find? (fun x => decide (wm < x)))
      rw [List.find?_append]
      have h2 := walk_children_eq_find cs wm
      cases hf : first_new_file cs.toList wm with
      | some r =>
        have : (file_mtimes cs.toList).find? (fun x => decide (wm < x)) = some r := hf
        rw [this]
        rfl
      | none =>
        have : (file_mtimes cs.toList).find? (fun x => decide (wm < x)) = none := hf
        rw [this]
        simpa using h2

theorem walk_children_eq_find (cs : FSList) (wm : Int) :
    walk_children cs wm = (inspected_children cs).find? (fun m => decide (wm < m)) :=
  match cs with
  | .nil => rfl
  | .cons (.file nm mt) rest => walk_children_eq_find rest wm
  | .cons (.dir n m cs2) rest => by
    show (if n = "CVS" ∨ n = ".svn" then walk_children rest wm
          else match is_modified_after (.dir n m cs2) wm with
            | some r => some r
            | none => walk_children rest wm)
      = ((if n = "CVS" ∨ n = ".svn" then inspected_children rest
          else inspected_mtimes (.dir n m cs2) ++ inspected_children rest).find?
          (fun x => decide (wm < x)))
    by_cases hp : n = "CVS" ∨ n = ".svn"
    · rw [if_pos hp, if_pos hp]
      exact walk_children_eq_find rest wm
    · rw [if_neg hp, if_neg hp, List.find?_append]
      have h1 := is_modified_after_eq_find (.dir n m cs2) wm
      have h2 := walk_children_eq_find rest wm
      rw [h1, h2]
      cases hf : (inspected_mtimes (.dir n m cs2)).find? (fun x => decide (wm < x)) with
      | some r => rfl
      | none => rfl
end

/-- C2: `is_modified_after` equals the first element of the list of
inspected mtimes (walked directories' own timestamps and every contained
file, in walk order, with `CVS` and `.svn` subtrees never inspected) that
strictly exceeds the watermark; in particular it returns some value iff such
an entry exists (the value need not be the maximum), and any returned value
strictly exceeds the watermark. -/
theorem c2_is_modified_after_first_hit (t : FSTree) (wm : Int) :
    is_modified_after t wm = (inspected_mtimes t).find? (fun m => decide (wm < m))
    ∧ ((is_modified_after t wm).isSome ↔ ∃ m ∈ inspected_mtimes t, wm < m)
    ∧ (∀ r : Int, is_modified_after t wm = some r → wm < r) := by
  refine ⟨is_modified_after_eq_find t wm, ?_, ?_⟩
  · rw [is_modified_after_eq_find t wm, List.find?_isSome]
    simp
  · intro r hr
    rw [is_modified_after_eq_find t wm] at hr
    have hpr := List.find?_some hr
    simpa using hpr

/-! ## Orchestrator lemmas -/

theorem get_archive_name_inj {a b : String} (h : get_archive_name a = get_archive_name b) :
    a = b := by
  unfold get_archive_name at h
  have hd := congrArg String.data h
  simp only [String.data_append] at hd
  have h2 := List.append_cancel_right hd
  have h3 := List.append_cancel_left h2
  cases a
  cases b
  exact congrArg String.mk h3

theorem glat_congr (x : String) (h1 h2 : History)
    (h : dict_get h1 x = dict_get h2 x) :
    get_last_archivized_time x h1 = get_last_archivized_time x h2 := by
  unfold get_last_archivized_time
  rw [h]

theorem create_archive_ok (env : Env) (c an : String) (st : RunState)
    (h : env.tar an = ⟨none, none, none⟩) :
    create_archive env c an st
      = ({ st with
            archivesOpened := st.archivesOpened ++ [an]
            history := dict_insert st.history c (env.timeAt st.timeCounter)
            timeCounter := st.timeCounter + 1 }, none) := by
  simp only [create_archive, h]

theorem create_archive_cases (env : Env) (c an : String) (st : RunState) :
    (create_archive env c an st
        = ({ st with
              archivesOpened := st.archivesOpened ++ [an]
              history := dict_insert st.history c (env.timeAt st.timeCounter)
              timeCounter := st.timeCounter + 1 }, none)
      ∧ create_raises (env.tar an) = none)
    ∨ ∃ e, create_raises (env.tar an) = some e
        ∧ (create_archive env c an st
              = ({ st with events := st.events ++ [ErrEvent.tarRaise an e] }, some e)
          ∨ create_archive env c an st
              = ({ st with
                    archivesOpened := st.archivesOpened ++ [an]
                    events := st.events ++ [ErrEvent.tarRaise an e] }, some e)) := by
  simp only [create_archive, create_raises]
  rcases ho : (env.tar an).openR with _ | e1
  · rcases ha : (env.tar an).addR with _ | e2
    · rcases hc2 : (env.tar an).closeR with _ | e3
      · exact Or.inl ⟨rfl, rfl⟩
      · exact Or.inr ⟨e3, rfl, Or.inr rfl⟩
    · exact Or.inr ⟨e2, rfl, Or.inr rfl⟩
  · exact Or.inr ⟨e1, rfl, Or.inl rfl⟩

theorem create_archive_exc (env : Env) (c an : String) (st : RunState) :
    (create_archive env c an st).2 = create_raises (env.tar an) := by
  rcases create_archive_cases env c an st with ⟨he, hr⟩ | ⟨e, hr, he | he⟩ <;> rw [he, hr]

theorem create_archive_output (env : Env) (c an : String) (st : RunState) :
    (create_archive env c an st).1.output = st.output := by
  rcases create_archive_cases env c an st with ⟨he, _⟩ | ⟨e, _, he | he⟩ <;> rw [he]

theorem create_archive_opened (env : Env) (c an : String) (st : RunState) :
    ∀ x ∈ (create_archive env c an st).1.archivesOpened,
      x ∈ st.archivesOpened ∨ x = an := by
  intro x hx
  rcases create_archive_cases env c an st with ⟨he, _⟩ | ⟨e, _, he | he⟩ <;> rw [he] at hx <;>
    simp only [List.mem_append, List.mem_singleton] at hx <;> tauto

theorem create_archive_history_other (env : Env) (c an : String) (st : RunState)
    (x : String) (hx : x ≠ c) :
    dict_get (create_archive env c an st).1.history x = dict_get st.history x := by
  rcases create_archive_cases env c an st with ⟨he, _⟩ | ⟨e, _, he | he⟩ <;> rw [he]
  exact dict_get_insert_ne st.history c x _ hx

theorem create_archive_fail_state (env : Env) (c an : String) (st : RunState) (e : PyExc)
    (h : create_raises (env.tar an) = some e) :
    (create_archive env c an st).2 = some e
    ∧ (create_archive env c an st).1.history = st.history
    ∧ (create_archive env c an st).1.events = st.events ++ [ErrEvent.tarRaise an e] := by
  rcases create_archive_cases env c an st with ⟨he, hr⟩ | ⟨e2, hr, he | he⟩
  · rw [hr] at h
    exact absurd h (by simp)
  all_goals (
    rw [hr] at h
    simp only [Option.some.injEq] at h
    subst h
    rw [he]
    exact ⟨rfl, rfl, rfl⟩)

theorem create_archive_events (env : Env) (c an : String) (st : RunState) :
    ∀ ev ∈ (create_archive env c an st).1.events,
      ev ∈ st.events ∨ ∃ e, ev = ErrEvent.tarRaise an e
        ∧ (create_archive env c an st).2 = some e := by
  intro ev hev
  rcases create_archive_cases env c an st with ⟨he, _⟩ | ⟨e, _, he | he⟩ <;> rw [he] at hev ⊢
  · exact Or.inl hev
  all_goals (
    simp only [List.mem_append, List.mem_singleton] at hev
    rcases hev with hev | hev
    · exact Or.inl hev
    · exact Or.inr ⟨e, hev, rfl⟩)

theorem create_archive_opened_mono (env : Env) (c an : String) (st : RunState) (x : String)
    (hx : x ∈ st.archivesOpened) :
    x ∈ (create_archive env c an st).1.archivesOpened := by
  rcases create_archive_cases env c an st with ⟨he, _⟩ | ⟨e, _, he | he⟩ <;> rw [he] <;>
    simp [hx]

theorem try_archive_unmodified (env : Env) (c : String) (tree : FSTree) (an : String)
    (st : RunState)
    (hm : is_modified_after tree (get_last_archivized_time c st.history).1 = none) :
    try_archive env c tree an st
      = ({ st with output := st.output
            ++ [.dirStatus c (get_last_archivized_time c st.history).2] }, none) := by
  simp only [try_archive, hm]

theorem try_archive_zero (env : Env) (d : String) (tree : FSTree) (an : String)
    (st : RunState)
    (hm : is_modified_after tree (get_last_archivized_time d st.history).1 = some 0) :
    try_archive env d tree an st
      = ({ st with output := st.output
            ++ [.dirStatus d (get_last_archivized_time d st.history).2,
                .modifiedNote d] }, none) := by
  simp only [try_archive, hm]
  simp

theorem try_archive_success (env : Env) (d : String) (tree : FSTree) (an : String)
    (st : RunState) (r : Int)
    (hm : is_modified_after tree (get_last_archivized_time d st.history).1 = some r)
    (hr0 : r ≠ 0)
    (ht : env.tar an = ⟨none, none, none⟩) :
    try_archive env d tree an st
      = ({ st with
            output := st.output ++ [.dirStatus d (get_last_archivized_time d st.history).2,
              .modifiedNote d, .creating an]
            archivesOpened := st.archivesOpened ++ [an]
            history := dict_insert st.history d (env.timeAt st.timeCounter)
            timeCounter := st.timeCounter + 1 }, none) := by
  simp only [try_archive, hm]
  rw [if_neg hr0]
  rw [create_archive_ok env d an _ ht]
  simp

theorem try_archive_to_create (env : Env) (d : String) (tree : FSTree) (an : String)
    (st : RunState) (r : Int)
    (hm : is_modified_after tree (get_last_archivized_time d st.history).1 = some r)
    (hr0 : r ≠ 0) :
    try_archive env d tree an st
      = create_archive env d an ({ st with output := st.output
          ++ [.dirStatus d (get_last_archivized_time d st.history).2,
              .modifiedNote d, .creating an] }) := by
  simp only [try_archive, hm]
  rw [if_neg hr0]
  congr 1
  simp

theorem try_archive_raises (env : Env) (d : String) (tree : FSTree) (an : String)
    (st : RunState) (r : Int) (e : PyExc)
    (hm : is_modified_after tree (get_last_archivized_time d st.history).1 = some r)
    (hr0 : r ≠ 0)
    (hr : create_raises (env.tar an) = some e) :
    (try_archive env d tree an st).2 = some e
    ∧ (try_archive env d tree an st).1.history = st.history
    ∧ (try_archive env d tree an st).1.output
        = st.output ++ [.dirStatus d (get_last_archivized_time d st.history).2,
            .modifiedNote d, .creating an]
    ∧ (try_archive env d tree an st).1.events = st.events ++ [ErrEvent.tarRaise an e]
    ∧ ∀ x ∈ (try_archive env d tree an st).1.archivesOpened,
        x ∈ st.archivesOpened ∨ x = an := by
  rw [try_archive_to_create env d tree an st r hm hr0]
  obtain ⟨h1, h2, h3⟩ := create_archive_fail_state env d an _ e hr
  refine ⟨h1, h2, ?_, h3, ?_⟩
  · rw [create_archive_output]
  · intro x hx
    exact create_archive_opened env d an
      ({ st with output := st.output
          ++ [.dirStatus d (get_last_archivized_time d st.history).2,
              .modifiedNote d, .creating an] }) x hx

theorem try_archive_history_other (env : Env) (c : String) (tree : FSTree) (an : String)
    (st : RunState) (x : String) (hx : x ≠ c) :
    dict_get (try_archive env c tree an st).1.history x = dict_get st.history x := by
  cases hm : is_modified_after tree (get_last_archivized_time c st.history).1 with
  | none => rw [try_archive_unmodified env c tree an st hm]
  | some r =>
    by_cases hr0 : r = 0
    · subst hr0
      rw [try_archive_zero env c tree an st hm]
    · rw [try_archive_to_create env c tree an st r hm hr0]
      exact create_archive_history_other env c an _ x hx

theorem try_archive_opened (env : Env) (c : String) (tree : FSTree) (an : String)
    (st : RunState) :
    ∀ x ∈ (try_archive env c tree an st).1.archivesOpened,
      x ∈ st.archivesOpened ∨ x = an := by
  cases hm : is_modified_after tree (get_last_archivized_time c st.history).1 with
  | none =>
    rw [try_archive_unmodified env c tree an st hm]
    intro x hx
    exact Or.inl hx
  | some r =>
    by_cases hr0 : r = 0
    · subst hr0
      rw [try_archive_zero env c tree an st hm]
      intro x hx
      exact Or.inl hx
    · rw [try_archive_to_create env c tree an st r hm hr0]
      exact create_archive_opened env c an _

theorem try_archive_opened_mono (env : Env) (c : String) (tree : FSTree) (an : String)
    (st : RunState) (x : String) (hx : x ∈ st.archivesOpened) :
    x ∈ (try_archive env c tree an st).1.archivesOpened := by
  cases hm : is_modified_after tree (get_last_archivized_time c st.history).1 with
  | none =>
    rw [try_archive_unmodified env c tree an st hm]
    exact hx
  | some r =>
    by_cases hr0 : r = 0
    · subst hr0
      rw [try_archive_zero env c tree an st hm]
      exact hx
    · rw [try_archive_to_create env c tree an st r hm hr0]
      exact create_archive_opened_mono env c an _ x hx

theorem try_archive_output_mono (env : Env) (c : String) (tree : FSTree) (an : String)
    (st : RunState) (m : OutMsg) (hmem : m ∈ st.output) :
    m ∈ (try_archive env c tree an st).1.output := by
  cases hm : is_modified_after tree (get_last_archivized_time c st.history).1 with
  | none =>
    rw [try_archive_unmodified env c tree an st hm]
    simp [hmem]
  | some r =>
    by_cases hr0 : r = 0
    · subst hr0
      rw [try_archive_zero env c tree an st hm]
      simp [hmem]
    · rw [try_archive_to_create env c tree an st r hm hr0]
      rw [create_archive_output]
      simp [hmem]

theorem try_archive_events (env : Env) (c : String) (tree : FSTree) (an : String)
    (st : RunState) :
    ∀ ev ∈ (try_archive env c tree an st).1.events,
      ev ∈ st.events
      ∨ ∃ e, ev = ErrEvent.tarRaise an e ∧ (try_archive env c tree an st).2 = some e := by
  cases hm : is_modified_after tree (get_last_archivized_time c st.history).1 with
  | none =>
    rw [try_archive_unmodified env c tree an st hm]
    intro ev hev
    exact Or.inl hev
  | some r =>
    by_cases hr0 : r = 0
    · subst hr0
      rw [try_archive_zero env c tree an st hm]
      intro ev hev
      exact Or.inl hev
    · rw [try_archive_to_create env c tree an st r hm hr0]
      exact create_archive_events env c an _

theorem run_subdirs_cons (env : Env) (d : String) (tree : FSTree)
    (rest : List (String × FSTree)) (st : RunState) :
    run_subdirs env ((d, tree) :: rest) st
      = match (try_archive env d tree (get_archive_name d) st).2 with
        | none => run_subdirs env rest (try_archive env d tree (get_archive_name d) st).1
        | some .interrupt =>
          ({ (try_archive env d tree (get_archive_name d) st).1 with
              output := (try_archive env d tree (get_archive_name d) st).1.output
                ++ [.interruptNote (get_archive_name d)] }, some .interrupt)
        | some (.err m) =>
          ({ (try_archive env d tree (get_archive_name d) st).1 with
              output := (try_archive env d tree (get_archive_name d) st).1.output
                ++ [.errorNote (get_archive_name d) m] }, some (.err m)) := rfl

theorem run_subdirs_opened_mono (env : Env) :
    ∀ (dirs : List (String × FSTree)) (st : RunState) (x : String),
      x ∈ st.archivesOpened → x ∈ (run_subdirs env dirs st).1.archivesOpened := by
  intro dirs
  induction dirs with
  | nil => intro st x hx; exact hx
  | cons p rest ih =>
    obtain ⟨d, tree⟩ := p
    intro st x hx
    rw [run_subdirs_cons]
    have hx2 := try_archive_opened_mono env d tree (get_archive_name d) st x hx
    cases hexc : (try_archive env d tree (get_archive_name d) st).2 with
    | none => exact ih _ x hx2
    | some e =>
      cases e with
      | interrupt => exact hx2
      | err m => exact hx2

theorem run_subdirs_output_mono (env : Env) :
    ∀ (dirs : List (String × FSTree)) (st : RunState) (m : OutMsg),
      m ∈ st.output → m ∈ (run_subdirs env dirs st).1.output := by
  intro dirs
  induction dirs with
  | nil => intro st m hm; exact hm
  | cons p rest ih =>
    obtain ⟨d, tree⟩ := p
    intro st m hm
    rw [run_subdirs_cons]
    have hm2 := try_archive_output_mono env d tree (get_archive_name d) st m hm
    cases hexc : (try_archive env d tree (get_archive_name d) st).2 with
    | none => exact ih _ m hm2
    | some e =>
      cases e with
      | interrupt => exact List.mem_append_left _ hm2
      | err m2 => exact List.mem_append_left _ hm2

theorem run_subdirs_untouched (env : Env) (x : String) :
    ∀ (dirs : List (String × FSTree)) (st : RunState),
      (∀ tc, (x, tc) ∈ dirs →
        is_modified_after tc (get_last_archivized_time x st.history).1 = none) →
      dict_get (run_subdirs env dirs st).1.history x = dict_get st.history x
      ∧ (get_archive_name x ∈ (run_subdirs env dirs st).1.archivesOpened
          → get_archive_name x ∈ st.archivesOpened) := by
  intro dirs
  induction dirs with
  | nil => intro st _; exact ⟨rfl, id⟩
  | cons p rest ih =>
    obtain ⟨c, tc⟩ := p
    intro st hyp
    rw [run_subdirs_cons]
    by_cases hcx : c = x
    · subst hcx
      have hm := hyp tc (by simp)
      rw [try_archive_unmodified env c tc (get_archive_name c) st hm]
      have hnext := ih
        ({ st with output := st.output
            ++ [.dirStatus c (get_last_archivized_time c st.history).2] })
        (fun tc2 hmem => hyp tc2 (by simp [hmem]))
      exact hnext
    · have hxc : x ≠ c := fun he => hcx he.symm
      have hho := try_archive_history_other env c tc (get_archive_name c) st x hxc
      have hop := try_archive_opened env c tc (get_archive_name c) st
      cases hexc : (try_archive env c tc (get_archive_name c) st).2 with
      | none =>
        have hnext := ih (try_archive env c tc (get_archive_name c) st).1 ?hyp2
        case hyp2 =>
          intro tc2 hmem
          rw [glat_congr x _ st.history hho]
          exact hyp tc2 (by simp [hmem])
        constructor
        · rw [hnext.1, hho]
        · intro hin
          rcases hop _ (hnext.2 hin) with h1 | h1
          · exact h1
          · exact absurd (get_archive_name_inj h1).symm hcx
      | some e =>
        cases e with
        | interrupt =>
          refine ⟨hho, ?_⟩
          intro hin
          rcases hop _ hin with h1 | h1
          · exact h1
          · exact absurd (get_archive_name_inj h1).symm hcx
        | err m =>
          refine ⟨hho, ?_⟩
          intro hin
          rcases hop _ hin with h1 | h1
          · exact h1
          · exact absurd (get_archive_name_inj h1).symm hcx

theorem run_subdirs_events_surfaced (env : Env) :
    ∀ (dirs : List (String × FSTree)) (st : RunState) (ev : ErrEvent),
      ev ∈ (run_subdirs env dirs st).1.events →
      ev ∈ st.events
      ∨ ∃ a e, ev = ErrEvent.tarRaise a e ∧ tar_note a e ∈ (run_subdirs env dirs st).1.output := by
  intro dirs
  induction dirs with
  | nil => intro st ev hev; exact Or.inl hev
  | cons p rest ih =>
    obtain ⟨c, tc⟩ := p
    intro st ev
    rw [run_subdirs_cons]
    cases hexc : (try_archive env c tc (get_archive_name c) st).2 with
    | none =>
      intro hev
      rcases ih (try_archive env c tc (get_archive_name c) st).1 ev hev with h1 | h2
      · rcases try_archive_events env c tc (get_archive_name c) st ev h1 with h3 | ⟨e, _, h4⟩
        · exact Or.inl h3
        · rw [hexc] at h4
          exact absurd h4 (by simp)
      · exact Or.inr h2
    | some e =>
      cases e with
      | interrupt =>
        intro hev
        rcases try_archive_events env c tc (get_archive_name c) st ev hev
          with h1 | ⟨e2, he2, hexc2⟩
        · exact Or.inl h1
        · right
          rw [hexc] at hexc2
          injection hexc2 with hee
          subst hee
          exact ⟨get_archive_name c, PyExc.interrupt, he2, by simp [tar_note]⟩
      | err m =>
        intro hev
        rcases try_archive_events env c tc (get_archive_name c) st ev hev
          with h1 | ⟨e2, he2, hexc2⟩
        · exact Or.inl h1
        · right
          rw [hexc] at hexc2
          injection hexc2 with hee
          subst hee
          exact ⟨get_archive_name c, PyExc.err m, he2, by simp [tar_note]⟩

theorem run_subdirs_append (env : Env) :
    ∀ (l1 l2 : List (String × FSTree)) (st : RunState),
      (run_subdirs env l1 st).2 = none →
      run_subdirs env (l1 ++ l2) st = run_subdirs env l2 (run_subdirs env l1 st).1 := by
  intro l1
  induction l1 with
  | nil => intro l2 st _; rfl
  | cons p rest ih =>
    obtain ⟨c, tc⟩ := p
    intro l2 st hnone
    rw [run_subdirs_cons] at hnone
    rw [List.cons_append, run_subdirs_cons, run_subdirs_cons]
    cases hexc : (try_archive env c tc (get_archive_name c) st).2 with
    | none =>
      rw [hexc] at hnone
      exact ih l2 _ hnone
    | some e =>
      rw [hexc] at hnone
      cases e <;> simp at hnone

theorem run_subdirs_history_other (env : Env) (x : String) :
    ∀ (dirs : List (String × FSTree)) (st : RunState),
      (∀ tc, (x, tc) ∉ dirs) →
      dict_get (run_subdirs env dirs st).1.history x = dict_get st.history x := by
  intro dirs
  induction dirs with
  | nil => intro st _; rfl
  | cons p rest ih =>
    obtain ⟨c, tcr⟩ := p
    intro st hab
    rw [run_subdirs_cons]
    have hxc : x ≠ c := by
      intro he
      exact hab tcr (by rw [he]; exact List.mem_cons_self _ _)
    have hho := try_archive_history_other env c tcr (get_archive_name c) st x hxc
    cases hexc : (try_archive env c tcr (get_archive_name c) st).2 with
    | none =>
      rw [ih (try_archive env c tcr (get_archive_name c) st).1
        (fun tc2 hm2 => hab tc2 (List.mem_cons_of_mem _ hm2)), hho]
    | some e =>
      cases e with
      | interrupt => exact hho
      | err m => exact hho

theorem main_ok_components (env : Env) (h0 : History)
    (hload : parse_archive_history env.fileState = Except.ok h0) :
    (main env).final.history
        = (run_subdirs env env.subDirs (post_load_state env h0)).1.history
    ∧ (main env).final.archivesOpened
        = (run_subdirs env env.subDirs (post_load_state env h0)).1.archivesOpened
    ∧ (main env).final.output
        = (run_subdirs env env.subDirs (post_load_state env h0)).1.output
    ∧ (env.saveR = none →
        (main env).persisted
          = some (save_history
              (run_subdirs env env.subDirs (post_load_state env h0)).1.history)) := by
  unfold main
  rw [hload]
  cases env.saveR with
  | some e2 => exact ⟨rfl, rfl, rfl, fun hc => absurd hc (by simp)⟩
  | none => exact ⟨rfl, rfl, rfl, fun _ => rfl⟩

theorem dict_get_mem (h : History) (k : String) (v : Int)
    (hv : dict_get h k = some v) : (k, v) ∈ h := by
  unfold dict_get at hv
  rcases Option.map_eq_some'.mp hv with ⟨p, hfind, hsnd⟩
  have hmem := List.mem_of_find?_eq_some hfind
  have hpred : p.1 = k := by simpa using List.find?_some hfind
  obtain ⟨p1, p2⟩ := p
  dsimp at hpred hsnd
  subst hpred
  subst hsnd
  exact hmem

theorem save_history_mem (h : History) (k : String) (v : Int)
    (hkv : (k, v) ∈ h) :
    ∃ root, save_history h = [root] ∧ create_dir_tag k v ∈ root.childNodes := by
  unfold save_history
  refine ⟨_, rfl, ?_⟩
  show create_dir_tag k v
      ∈ ((h.map (fun p => [XmlNode.text "\n    ", create_dir_tag p.1 p.2])).flatten
          ++ [XmlNode.text "\n"])
  rw [List.mem_append]
  left
  rw [List.mem_flatten]
  refine ⟨[XmlNode.text "\n    ", create_dir_tag k v], ?_, by simp⟩
  rw [List.mem_map]
  exact ⟨(k, v), hkv, rfl⟩

theorem load_events_sub (fs : FileState) (h0 : History)
    (hload : parse_archive_history fs = Except.ok h0) :
    ∀ ev ∈ load_events fs, ev = ErrEvent.ioSwallowed := by
  intro ev hev
  cases fs with
  | ioError =>
    simp only [load_events, parse_archive_history] at hev
    simpa using hev
  | malformed m =>
    exact absurd hload (by simp [parse_archive_history])
  | parsed doc =>
    unfold load_events at hev
    rw [hload] at hev
    dsimp only at hev
    exact absurd hev (List.not_mem_nil ev)

/-- C10: `create_archive` is atomic with respect to the History: whenever one
of the tar steps (`tarfile.open`, `add`, `close`) raises, the History mapping
is exactly what it was before the call — `history[sub_dir] = int(time.time())`
runs only after a successful close. -/
theorem c10_create_archive_atomic (env : Env) (c an : String) (st : RunState) (e : PyExc)
    (h : (create_archive env c an st).2 = some e) :
    (create_archive env c an st).1.history = st.history := by
  rcases create_archive_cases env c an st with ⟨he, _⟩ | ⟨e2, _, he | he⟩ <;> rw [he] at h ⊢
  simp at h

/-- C10 witness: with `tarfile.open` raising `disk full` on an empty initial
state, `create_archive` raises and the History is unchanged. -/
theorem c10_witness :
    (create_archive envOpenFail "d" (get_archive_name "d") initState).1.history
      = initState.history :=
  c10_create_archive_atomic envOpenFail "d" (get_archive_name "d") initState
    (PyExc.err "disk full") rfl

/-- C6: when the load raises `ExcInvalidFormat`, `main` aborts before any
archiving — the exception escapes, nothing is written to
`archive-history.xml`, and no archive file is ever opened. -/
theorem c6_format_error_aborts (env : Env) (m : String)
    (hload : parse_archive_history env.fileState = Except.error m) :
    (main env).exc = some (MainExc.invalidFormat m)
    ∧ (main env).persisted = none
    ∧ (main env).final.archivesOpened = [] := by
  unfold main
  rw [hload]
  exact ⟨rfl, rfl, rfl⟩

/-- C6 witness: a present but malformed metadata file aborts the run with the
wrapped `ExpatError` message, persisting and archiving nothing. -/
theorem c6_witness :
    (main envMalformed).exc
        = some (MainExc.invalidFormat "Invalid format archive-history.xml - junk")
    ∧ (main envMalformed).persisted = none
    ∧ (main envMalformed).final.archivesOpened = [] :=
  c6_format_error_aborts envMalformed "Invalid format archive-history.xml - junk" rfl

/-- C7: for a subdirectory none of whose listed trees has an inspected entry
newer than its stored watermark, the whole run leaves its History entry
unchanged and never opens its archive file. -/
theorem c7_unmodified_untouched (env : Env) (h0 : History) (x : String)
    (hload : parse_archive_history env.fileState = Except.ok h0)
    (hall : ∀ tc, (x, tc) ∈ env.subDirs →
      is_modified_after tc (get_last_archivized_time x h0).1 = none) :
    dict_get (main env).final.history x = dict_get h0 x
    ∧ get_archive_name x ∉ (main env).final.archivesOpened := by
  obtain ⟨hH, hA, -, -⟩ := main_ok_components env h0 hload
  obtain ⟨h1, h2⟩ := run_subdirs_untouched env x env.subDirs (post_load_state env h0) hall
  constructor
  · rw [hH, h1]
    rfl
  · intro hmem
    rw [hA] at hmem
    have h3 := h2 hmem
    simp [post_load_state, initState] at h3

/-- C7 witness: with the stored watermark `2011-02-03 18:34:54 GMT` newer
than everything in the tree of `d`, the run keeps `d`'s entry and opens no
archive. -/
theorem c7_witness :
    dict_get (main envUnmod).final.history "d" = dict_get [("d", (1296758094 : Int))] "d"
    ∧ get_archive_name "d" ∉ (main envUnmod).final.archivesOpened :=
  c7_unmodified_untouched envUnmod [("d", 1296758094)] "d" rfl
    (by
      intro tc htc
      simp [envUnmod] at htc
      subst htc
      decide)

/-- C8 (amended): when a subdirectory's name is absent from the History, the
watermark used is the `-1` sentinel (displayed `never`), which every real
(non-negative) modification time strictly exceeds, so a tree with any real
inspected entry is reported modified; the subdirectory is then archived
provided the detector's first qualifying hit is NONZERO — because
`if isModified:` tests the returned mtime for truthiness, a first hit of
exactly epoch `0` is falsy and the archive step is skipped
(`c8_counterexample`), so "archived unconditionally" does not hold. -/
theorem c8_never_sentinel (history : History) (c : String) (tree : FSTree) (m : Int)
    (habs : dict_get history c = none)
    (hm : m ∈ inspected_mtimes tree) (hreal : 0 ≤ m) :
    (get_last_archivized_time c history).1 = -1
    ∧ (get_last_archivized_time c history).2 = "never"
    ∧ (∃ r, is_modified_after tree (get_last_archivized_time c history).1 = some r)
    ∧ ∀ (env : Env) (an : String) (st : RunState) (r : Int), st.history = history →
        is_modified_after tree (get_last_archivized_time c history).1 = some r →
        r ≠ 0 →
        OutMsg.creating an ∈ (try_archive env c tree an st).1.output := by
  have h12 : get_last_archivized_time c history = (-1, "never") := by
    simp [get_last_archivized_time, habs]
  have hmod : ∃ r, is_modified_after tree (-1 : Int) = some r := by
    have hs : ((inspected_mtimes tree).find? (fun x => decide ((-1 : Int) < x))).isSome := by
      rw [List.find?_isSome]
      exact ⟨m, hm, by simp only [decide_eq_true_eq]; omega⟩
    rw [is_modified_after_eq_find]
    exact Option.isSome_iff_exists.mp hs
  refine ⟨by rw [h12], by rw [h12], by rw [h12]; exact hmod, ?_⟩
  intro env an st r hst hr hr0
  have hm2 : is_modified_after tree (get_last_archivized_time c st.history).1 = some r := by
    rw [hst]
    exact hr
  rw [try_archive_to_create env c tree an st r hm2 hr0, create_archive_output]
  simp

/-- C8 counterexample: the tree of `z` has its own directory mtime exactly
`0` — a real timestamp that qualifies against the `-1` sentinel, so the
detector returns it — yet `if isModified:` finds `0` falsy: no
`Creating archive` line is printed, no archive is opened, and the History
stays empty, refuting "archived unconditionally on first encounter". -/
theorem c8_counterexample :
    dict_get ([] : History) "z" = none
    ∧ is_modified_after treeZ (get_last_archivized_time "z" []).1 = some 0
    ∧ OutMsg.creating (get_archive_name "z")
        ∉ (try_archive envOk "z" treeZ (get_archive_name "z") initState).1.output
    ∧ (try_archive envOk "z" treeZ (get_archive_name "z") initState).1.archivesOpened = []
    ∧ (try_archive envOk "z" treeZ (get_archive_name "z") initState).1.history = [] := by
  refine ⟨rfl, by decide, by decide, by decide, by decide⟩

/-- C8 witness: the empty History with the one-directory tree `d` (mtime 5):
the sentinel is `-1`, shown as `never`, the tree counts as modified and any
nonzero first hit leads to the `Creating archive` line. -/
theorem c8_witness :
    (get_last_archivized_time "d" []).1 = -1
    ∧ (get_last_archivized_time "d" []).2 = "never"
    ∧ (∃ r, is_modified_after tree5 (get_last_archivized_time "d" []).1 = some r)
    ∧ ∀ (env : Env) (an : String) (st : RunState) (r : Int), st.history = [] →
        is_modified_after tree5 (get_last_archivized_time "d" []).1 = some r →
        r ≠ 0 →
        OutMsg.creating an ∈ (try_archive env "d" tree5 an st).1.output :=
  c8_never_sentinel [] "d" tree5 5 rfl (by decide) (by decide)

/-- C1 (amended): for a run whose load succeeds, a listed subdirectory with
an inspected entry newer than its watermark is archived and restamped —
provided the loop reaches it (no earlier subdirectory broke the loop), the
detector's first qualifying hit is nonzero (the `if isModified:` truthiness
test skips a hit of exactly epoch `0`), its tar steps all succeed, and it is
not listed again later: then its archive `z-backup-<name>.tar.gz` is opened
during the run and its final History entry is the wall-clock reading taken
after the archive is written, which is at least the run's start time
whenever the clock never reads below the start time. Without the
tar-success proviso the claim fails (`c1_counterexample`). -/
theorem c1_modified_dir_archived (env : Env) (h0 : History) (t0 : Int)
    (pre post : List (String × FSTree)) (d : String) (tree : FSTree) (r : Int)
    (hload : parse_archive_history env.fileState = Except.ok h0)
    (hsubs : env.subDirs = pre ++ (d, tree) :: post)
    (hpre : (run_subdirs env pre (post_load_state env h0)).2 = none)
    (hmod : is_modified_after tree
      (get_last_archivized_time d
        (run_subdirs env pre (post_load_state env h0)).1.history).1 = some r)
    (hr0 : r ≠ 0)
    (htar : env.tar (get_archive_name d) = ⟨none, none, none⟩)
    (hnodup : ∀ tc, (d, tc) ∉ post)
    (hclock : ∀ k, t0 ≤ env.timeAt k) :
    get_archive_name d ∈ (main env).final.archivesOpened
    ∧ ∃ k, dict_get (main env).final.history d = some (env.timeAt k)
        ∧ t0 ≤ env.timeAt k := by
  obtain ⟨hH, hA, -, -⟩ := main_ok_components env h0 hload
  rw [hsubs] at hH hA
  rw [run_subdirs_append env pre ((d, tree) :: post) (post_load_state env h0) hpre] at hH hA
  rw [run_subdirs_cons] at hH hA
  have hS := try_archive_success env d tree (get_archive_name d)
    (run_subdirs env pre (post_load_state env h0)).1 r hmod hr0 htar
  rw [hS] at hH hA
  dsimp only at hH hA
  constructor
  · rw [hA]
    apply run_subdirs_opened_mono
    simp
  · refine ⟨(run_subdirs env pre (post_load_state env h0)).1.timeCounter, ?_, hclock _⟩
    rw [hH, run_subdirs_history_other env d post _ hnodup]
    exact dict_get_insert_self _ d _

/-- C1 counterexample: the unqualified claim fails when the archiver raises —
with a stored watermark of `1` and the tree of `d` modified at `5`, the run
of `envC1` (whose `tarfile.open` raises) creates no archive and leaves `d`'s
watermark at `1`. -/
theorem c1_counterexample :
    parse_archive_history envC1.fileState = Except.ok [("d", 1)]
    ∧ (∃ r, is_modified_after tree5 (get_last_archivized_time "d" [("d", (1 : Int))]).1
        = some r)
    ∧ get_archive_name "d" ∉ (main envC1).final.archivesOpened
    ∧ dict_get (main envC1).final.history "d" = some 1 := by
  refine ⟨rfl, ⟨5, by decide⟩, by decide, by decide⟩

/-- C1 witness: the empty-history run of `envOk` archives its one (modified)
subdirectory `d` and stamps it with the clock reading `100`, at least the
start time `100`. -/
theorem c1_witness :
    get_archive_name "d" ∈ (main envOk).final.archivesOpened
    ∧ ∃ k, dict_get (main envOk).final.history "d" = some (envOk.timeAt k)
        ∧ (100 : Int) ≤ envOk.timeAt k :=
  c1_modified_dir_archived envOk [] 100 [] [] "d" tree5 5 rfl rfl rfl (by decide)
    (by decide) rfl (fun _ h => List.not_mem_nil _ h) (fun _ => le_refl 100)

/-- C5: in a run with subdirectories `a`, `b`, then `rest` in listing order
where archiving `a` succeeds (`a`'s detector hit is nonzero, so the
truthiness test passes, and its tar steps succeed) and archiving `b` is
attempted (nonzero hit) and raises, the loop breaks at `b`: `a`'s restamped
watermark is still in the final History and in the persisted document (a
`directory` node with `a`'s name and new timestamp), and no directory
listed after `b` gets its `## Dir` status line — it is never processed. -/
theorem c5_fail_fast (env : Env) (h0 : History) (a b : String) (ta tb : FSTree)
    (rest : List (String × FSTree)) (r1 r2 : Int) (e : PyExc)
    (hload : parse_archive_history env.fileState = Except.ok h0)
    (hsubs : env.subDirs = (a, ta) :: (b, tb) :: rest)
    (hma : is_modified_after ta (get_last_archivized_time a h0).1 = some r1)
    (hr10 : r1 ≠ 0)
    (hta : env.tar (get_archive_name a) = ⟨none, none, none⟩)
    (hmb : is_modified_after tb
      (get_last_archivized_time b (dict_insert h0 a (env.timeAt 0))).1 = some r2)
    (hr20 : r2 ≠ 0)
    (htb : create_raises (env.tar (get_archive_name b)) = some e)
    (hdist : ∀ p ∈ rest, p.1 ≠ a ∧ p.1 ≠ b)
    (hsave : env.saveR = none) :
    dict_get (main env).final.history a = some (env.timeAt 0)
    ∧ (∃ root, (main env).persisted = some [root]
        ∧ create_dir_tag a (env.timeAt 0) ∈ root.childNodes)
    ∧ ∀ p ∈ rest, ∀ s, OutMsg.dirStatus p.1 s ∉ (main env).final.output := by
  have hTexc : (try_archive env a ta (get_archive_name a) (post_load_state env h0)).2
      = none := by
    rw [try_archive_success env a ta (get_archive_name a) (post_load_state env h0) r1 hma hr10 hta]
  have hThist : (try_archive env a ta (get_archive_name a)
        (post_load_state env h0)).1.history
      = dict_insert h0 a (env.timeAt 0) := by
    rw [try_archive_success env a ta (get_archive_name a) (post_load_state env h0) r1 hma hr10 hta]
    rfl
  have hTout : (try_archive env a ta (get_archive_name a)
        (post_load_state env h0)).1.output
      = [OutMsg.dirStatus a (get_last_archivized_time a h0).2, OutMsg.modifiedNote a,
         OutMsg.creating (get_archive_name a)] := by
    rw [try_archive_success env a ta (get_archive_name a) (post_load_state env h0) r1 hma hr10 hta]
    rfl
  have e1 : run_subdirs env ((a, ta) :: (b, tb) :: rest) (post_load_state env h0)
      = run_subdirs env ((b, tb) :: rest)
          (try_archive env a ta (get_archive_name a) (post_load_state env h0)).1 := by
    rw [run_subdirs_cons, hTexc]
  have hmb2 : is_modified_after tb (get_last_archivized_time b
      (try_archive env a ta (get_archive_name a) (post_load_state env h0)).1.history).1
      = some r2 := by
    rw [hThist]
    exact hmb
  obtain ⟨hUexc, hUhist, hUout, hUev, hUop⟩ :=
    try_archive_raises env b tb (get_archive_name b)
      (try_archive env a ta (get_archive_name a) (post_load_state env h0)).1 r2 e hmb2 hr20 htb
  have e2 : run_subdirs env ((b, tb) :: rest)
        (try_archive env a ta (get_archive_name a) (post_load_state env h0)).1
      = ({ (try_archive env b tb (get_archive_name b)
              (try_archive env a ta (get_archive_name a) (post_load_state env h0)).1).1 with
            output := (try_archive env b tb (get_archive_name b)
              (try_archive env a ta (get_archive_name a) (post_load_state env h0)).1).1.output
              ++ [tar_note (get_archive_name b) e] }, some e) := by
    rw [run_subdirs_cons, hUexc]
    cases e with
    | interrupt => rfl
    | err msg => rfl
  obtain ⟨hH, -, hO, hP⟩ := main_ok_components env h0 hload
  rw [hsubs, e1, e2] at hH hO
  dsimp only at hH hO
  rw [hUhist, hThist] at hH
  rw [hUout, hTout] at hO
  have hPs := hP hsave
  rw [hsubs, e1, e2] at hPs
  dsimp only at hPs
  rw [hUhist, hThist] at hPs
  refine ⟨?_, ?_, ?_⟩
  · rw [hH]
    exact dict_get_insert_self h0 a (env.timeAt 0)
  · obtain ⟨root, hr, hmem⟩ := save_history_mem (dict_insert h0 a (env.timeAt 0)) a
      (env.timeAt 0) (dict_get_mem _ _ _ (dict_get_insert_self h0 a (env.timeAt 0)))
    refine ⟨root, ?_, hmem⟩
    rw [hPs, hr]
  · intro p hp s hmem
    obtain ⟨hpa, hpb⟩ := hdist p hp
    rw [hO] at hmem
    cases e with
    | interrupt => simp [tar_note, hpa, hpb] at hmem
    | err msg => simp [tar_note, hpa, hpb] at hmem

/-- C5 witness: in `envABC`, archiving `a` succeeds, opening `b`'s tar
raises `disk full`, and `c` (listed after `b`) is never given a status
line, while `a`'s new watermark `100` is in the final History and in the
persisted document. -/
theorem c5_witness :
    dict_get (main envABC).final.history "a" = some 100
    ∧ (∃ root, (main envABC).persisted = some [root]
        ∧ create_dir_tag "a" 100 ∈ root.childNodes)
    ∧ ∀ p ∈ [("c", treeC)], ∀ s, OutMsg.dirStatus p.1 s ∉ (main envABC).final.output :=
  c5_fail_fast envABC [] "a" "b" treeA treeB [("c", treeC)] 3 4 (PyExc.err "disk full")
    rfl rfl (by decide) (by decide) rfl (by decide) (by decide) rfl (by decide) rfl

/-- C9 (amended): every error of a run except the load-time `IOError` is
surfaced — an `ExcInvalidFormat` and a `save_history` exception escape
`main` (where the interpreter reports them), and a tar exception gets its
handler line (`Interrupt creating ...` or `Error in creating ...`) printed
before the loop breaks; the `IOError` that `parse_archive_history` catches
with `pass` is, contrary to the claim, swallowed without any printed
message (`c9_counterexample`). -/
theorem c9_errors_surfaced (env : Env) (ev : ErrEvent)
    (hev : ev ∈ (main env).final.events) (hio : ev ≠ ErrEvent.ioSwallowed) :
    surfaced (main env) ev := by
  unfold main at hev ⊢
  cases hload : parse_archive_history env.fileState with
  | error m =>
    rw [hload] at hev
    dsimp only at hev
    unfold load_events at hev
    rw [hload] at hev
    dsimp only at hev
    simp only [List.mem_singleton] at hev
    subst hev
    rfl
  | ok h0 =>
    rw [hload] at hev
    dsimp only at hev
    cases hsave : env.saveR with
    | some se =>
      rw [hsave] at hev
      dsimp only at hev
      rw [List.mem_append] at hev
      rcases hev with hev | hev
      · rcases run_subdirs_events_surfaced env env.subDirs _ ev hev
          with h1 | ⟨an, e2, hevEq, hnote⟩
        · exact absurd (load_events_sub env.fileState h0 hload ev h1) hio
        · subst hevEq
          cases e2 with
          | interrupt => exact hnote
          | err m2 => exact hnote
      · simp only [List.mem_singleton] at hev
        subst hev
        rfl
    | none =>
      rw [hsave] at hev
      dsimp only at hev
      rcases run_subdirs_events_surfaced env env.subDirs _ ev hev
        with h1 | ⟨an, e2, hevEq, hnote⟩
      · exact absurd (load_events_sub env.fileState h0 hload ev h1) hio
      · subst hevEq
        cases e2 with
        | interrupt => exact hnote
        | err m2 => exact hnote

/-- C9 counterexample: the `IOError` swallowed by `parse_archive_history`'s
bare `pass` refutes the claim's "no error is ever silently swallowed": it
occurs in the run of `envIOErr` yet no message about it is printed and no
exception escapes. -/
theorem c9_counterexample :
    ErrEvent.ioSwallowed ∈ (main envIOErr).final.events
    ∧ ¬ surfaced (main envIOErr) ErrEvent.ioSwallowed :=
  ⟨by decide, fun h => h⟩

/-- C9 witness: the tar failure of `envOpenFail`'s run is surfaced — its
`Error in creating ...` line is printed. -/
theorem c9_witness :
    surfaced (main envOpenFail)
      (ErrEvent.tarRaise (get_archive_name "d") (PyExc.err "disk full")) :=
  c9_errors_surfaced envOpenFail
    (ErrEvent.tarRaise (get_archive_name "d") (PyExc.err "disk full"))
    (by decide) (by decide)

end IA
